import Mathlib

/-!
Verification of the "Daily Habit Hub" habit tracker (users, buckets,
entries, notes over a relational store, plus derived statistics and a
one-time legacy-bucket migration).

Calendar dates are embedded as integers counting days from a fixed civil
epoch (the standard days-from-civil bijection).  The JavaScript sources
manipulate dates either as `Date` objects stepped with `setDate` (one
step = one calendar day = one unit here) or as zero-padded ISO
`YYYY-MM-DD` strings compared lexicographically; both orders agree with
the integer order under this bijection, so `<`, `≤`, and `- 1` on the
integer encoding are faithful to the source's comparisons and stepping.
JavaScript numeric arithmetic is modelled exactly (over ℤ/ℚ); IEEE-754
double rounding is abstracted away.
-/

namespace HabitHub

/-- Days-from-civil (proleptic Gregorian, Hinnant's algorithm restricted to
positive years, which covers every date this system touches).  `civil y m d`
is the number of days since 0000-03-01; it is strictly increasing in calendar
order and increases by exactly 1 per calendar day. -/
def civil (y m d : ℕ) : ℤ :=
  let y' : ℕ := if m ≤ 2 then y - 1 else y
  let era : ℕ := y' / 400
  let yoe : ℕ := y' - era * 400
  let mp : ℕ := if 2 < m then m - 3 else m + 9
  let doy : ℕ := (153 * mp + 2) / 5 + (d - 1)
  let doe : ℕ := yoe * 365 + yoe / 4 - yoe / 100 + doy
  ((era * 146097 + doe : ℕ) : ℤ)

/-- Length of month `m` of year `y`, as JavaScript's
`new Date(Date.UTC(y, m, 0)).getDate()` computes it. -/
def daysInMonth (y m : ℕ) : ℕ :=
  if m = 2 then (if y % 4 = 0 ∧ (y % 100 ≠ 0 ∨ y % 400 = 0) then 29 else 28)
  else if m = 4 ∨ m = 6 ∨ m = 9 ∨ m = 11 then 30
  else 31

/-- JavaScript's `Math.round`: round half toward positive infinity. -/
def jsRound (q : ℚ) : ℤ := ⌊q + 1 / 2⌋

/-- A JSON value as it arrives in a request payload (numbers collapsed to
integers; only identity with the boolean literal `false` matters here). -/
inductive JSValue where
  | undef : JSValue
  | null : JSValue
  | bool (b : Bool) : JSValue
  | num (n : ℤ) : JSValue
  | str (s : String) : JSValue
deriving DecidableEq, Repr

/-- The check-in handler's `payload.checked !== false`: strict inequality
with the boolean literal `false` (src/api/checkins.js). -/
def coerceChecked (v : JSValue) : Bool :=
  match v with
  | .bool false => false
  | _ => true

/-- JavaScript's `String.prototype.trim()`: strip leading and trailing
whitespace (structurally recursive so concrete values evaluate). -/
def jsTrim (s : String) : String :=
  String.mk (((s.data.dropWhile Char.isWhitespace).reverse.dropWhile
    Char.isWhitespace).reverse)

/-- A row of the `buckets` table.  `userId = none` models the legacy
(pre-migration) state where `user_id` is absent or NULL. -/
structure Bucket where
  id : ℕ
  userId : Option ℕ
  name : String
  sortOrder : ℤ
deriving DecidableEq, Repr

/-- A row of the `entries` table (check-ins). -/
structure Entry where
  id : ℕ
  userId : ℕ
  bucketId : ℕ
  date : ℤ
  checked : Bool
deriving DecidableEq, Repr

/-- The durable state relevant to buckets and entries: the `users` table
(only ids matter here), the `buckets` and `entries` tables, the SERIAL
counters, and whether the per-user `user_id` column exists on `buckets`. -/
structure DBState where
  users : List ℕ
  buckets : List Bucket
  entries : List Entry
  nextBucketId : ℕ
  nextEntryId : ℕ
  hasUserIdColumn : Bool
deriving DecidableEq, Repr

/-- Outcome of a handler: a 200 response, a structured JSON error response
(produced by an explicit `sendJson(res, 4xx, ...)`), or an exception
escaping the handler (e.g. a database constraint violation). -/
inductive ApiResult (α : Type) where
  | ok (a : α) : ApiResult α
  | clientError (msg : String) : ApiResult α
  | thrown (msg : String) : ApiResult α
deriving DecidableEq, Repr

/-- Whether the outcome is a structured JSON error response. -/
def ApiResult.isClientError {α : Type} : ApiResult α → Bool
  | .clientError _ => true
  | _ => false

def ApiResult.isOk {α : Type} : ApiResult α → Bool
  | .ok _ => true
  | _ => false

/-- Payload of `POST /api/checkins`.  A missing/empty field is `none`
(`!payload?.bucketId` also treats the number 0 as missing, modelled below). -/
structure CheckinPayload where
  bucketId : Option ℕ
  date : Option ℤ
  checked : JSValue
deriving DecidableEq, Repr

/-- Key match for the entries unique index `(user_id, bucket_id, date)`. -/
def entryKeyIs (uid b : ℕ) (d : ℤ) (e : Entry) : Bool :=
  e.userId == uid && e.bucketId == b && e.date == d

/-- The `POST /api/checkins` handler (src/api/checkins.js): requires
`bucketId` and `date`, coerces `checked` with `!== false`, rejects dates
outside `[today − 2, today]`, then upserts the row keyed by
`(user_id, bucket_id, date)`.  `today` is the server's current UTC date;
the insert is subject to the foreign keys on `user_id` and `bucket_id`,
which surface as thrown database errors.  There is no check that the
bucket belongs to the calling user. -/
def handleCheckinPost (s : DBState) (uid : ℕ) (p : CheckinPayload) (today : ℤ) :
    DBState × ApiResult Unit :=
  match p.bucketId, p.date with
  | some b, some d =>
    if b == 0 then (s, .clientError "bucketId and date required")
    else
      let checked := coerceChecked p.checked
      let earliest := today - 2
      if d < earliest ∨ today < d then
        (s, .clientError "Can only edit entries for today and past 2 days")
      else if ¬ s.users.contains uid then (s, .thrown "entries_user_id_fkey")
      else if ¬ s.buckets.any (fun bk => bk.id == b) then
        (s, .thrown "entries_bucket_id_fkey")
      else if s.entries.any (entryKeyIs uid b d) then
        ({ s with entries := s.entries.map (fun e =>
            if entryKeyIs uid b d e then { e with checked := checked } else e) },
          .ok ())
      else
        ({ s with
            entries := s.entries ++ [⟨s.nextEntryId, uid, b, d, checked⟩],
            nextEntryId := s.nextEntryId + 1 },
          .ok ())
  | _, _ => (s, .clientError "bucketId and date required")

/-- Maximum habits per user (api/_lib/db.js `MAX_BUCKETS_PER_USER`). -/
def MAX_BUCKETS_PER_USER : ℕ := 5

/-- Buckets belonging to one user, in table order. -/
def bucketsOf (s : DBState) (uid : ℕ) : List Bucket :=
  s.buckets.filter (fun b => b.userId == some uid)

/-- The `GET /api/buckets` handler's result rows for the calling user
(src/api/buckets.js): the user's buckets ordered by `sort_order ASC, id ASC`. -/
def listBuckets (s : DBState) (uid : ℕ) : List Bucket :=
  (bucketsOf s uid).mergeSort (fun a b =>
    a.sortOrder < b.sortOrder ∨ (a.sortOrder = b.sortOrder ∧ a.id ≤ b.id))

/-- The `POST /api/buckets` branch (src/api/buckets.js): reject an
empty/missing name, reject at the 5-bucket cap, compute the next sort
position, and insert.  The insert is subject to the unique index
`buckets_user_name_unique (user_id, name)`: a duplicate surfaces as a
thrown database error, not a structured response. -/
def handleBucketCreate (s : DBState) (uid : ℕ) (name : Option String) :
    DBState × ApiResult Bucket :=
  match name with
  | none => (s, .clientError "Bucket name required")
  | some n =>
    let t := jsTrim n
    if t == "" then (s, .clientError "Bucket name required")
    else
      let cnt := (bucketsOf s uid).length
      if MAX_BUCKETS_PER_USER ≤ cnt then
        (s, .clientError "Maximum 5 habits allowed")
      else
        let nextOrder := ((bucketsOf s uid).foldl (fun a b => max a b.sortOrder) 0) + 1
        if s.buckets.any (fun b => b.userId == some uid && b.name == t) then
          (s, .thrown "buckets_user_name_unique")
        else
          let nb : Bucket := ⟨s.nextBucketId, some uid, t, nextOrder⟩
          ({ s with buckets := s.buckets ++ [nb], nextBucketId := s.nextBucketId + 1 },
            .ok nb)

/-- `COALESCE(${name?.trim() || null}, name)`: a supplied name with nonempty
trim replaces the current one, anything else keeps it. -/
def coalesceName (name : Option String) (cur : String) : String :=
  match name with
  | some n => if jsTrim n == "" then cur else jsTrim n
  | none => cur

/-- `COALESCE(${Number.isInteger(sortOrder) ? sortOrder : null}, sort_order)`:
a supplied integer replaces the current sort position, anything else keeps it. -/
def coalesceSort (sortOrder : Option ℤ) (cur : ℤ) : ℤ :=
  match sortOrder with
  | some z => z
  | none => cur

/-- The `PUT /api/buckets` branch (src/api/buckets.js): require an id,
verify ownership (404 otherwise), then
`SET name = COALESCE(trimmedName-or-null, name),
     sort_order = COALESCE(integerSortOrder-or-null, sort_order)`
on the row `WHERE id AND user_id`.  The update is subject to the unique
index on `(user_id, name)`, surfacing as a thrown database error. -/
def handleBucketUpdate (s : DBState) (uid : ℕ) (pid : Option ℕ)
    (name : Option String) (sortOrder : Option ℤ) : DBState × ApiResult Bucket :=
  match pid with
  | none => (s, .clientError "Bucket id required")
  | some i =>
    if i == 0 then (s, .clientError "Bucket id required")
    else
      match s.buckets.find? (fun b => b.id == i && b.userId == some uid) with
      | none => (s, .clientError "Bucket not found")
      | some tgt =>
        if s.buckets.any (fun b =>
            !(b.id == i) && b.userId == some uid &&
              b.name == coalesceName name tgt.name) then
          (s, .thrown "buckets_user_name_unique")
        else
          ({ s with buckets := s.buckets.map (fun b =>
              if b.id == i && b.userId == some uid then
                { b with name := coalesceName name b.name,
                         sortOrder := coalesceSort sortOrder b.sortOrder }
              else b) },
            .ok { tgt with name := coalesceName name tgt.name,
                           sortOrder := coalesceSort sortOrder tgt.sortOrder })

/-- The `DELETE /api/buckets` branch (src/api/buckets.js): require an id,
verify ownership (404 otherwise), delete the row; the `ON DELETE CASCADE`
foreign key removes every entry referencing a deleted bucket row. -/
def handleBucketDelete (s : DBState) (uid : ℕ) (pid : Option ℕ) :
    DBState × ApiResult Unit :=
  match pid with
  | none => (s, .clientError "Bucket id required")
  | some i =>
    if i == 0 then (s, .clientError "Bucket id required")
    else if ¬ s.buckets.any (fun b => b.id == i && b.userId == some uid) then
      (s, .clientError "Bucket not found")
    else
      let removedIds := (s.buckets.filter
        (fun b => b.id == i && b.userId == some uid)).map (fun b => b.id)
      ({ s with
          buckets := s.buckets.filter (fun b => !(b.id == i && b.userId == some uid)),
          entries := s.entries.filter (fun e => !(removedIds.contains e.bucketId)) },
        .ok ())

/-- The three default habits (api/_lib/db.js `DEFAULT_BUCKETS`). -/
def DEFAULT_BUCKETS : List (String × ℤ) :=
  [("10 min calisthenics", 1), ("25 min cardio", 2), ("Stretching / mobility", 3)]

/-- One `INSERT ... ON CONFLICT (user_id, name) DO NOTHING` of a default
bucket for a user. -/
def insertDefaultBucket (uid : ℕ) (s : DBState) (nmSort : String × ℤ) : DBState :=
  if s.buckets.any (fun b => b.userId == some uid && b.name == nmSort.1) then s
  else { s with
    buckets := s.buckets ++ [⟨s.nextBucketId, some uid, nmSort.1, nmSort.2⟩],
    nextBucketId := s.nextBucketId + 1 }

/-- `seedBucketsForUser` (api/_lib/db.js): if the user already has any
bucket, do nothing; otherwise insert the three defaults. -/
def seedBucketsForUser (uid : ℕ) (s : DBState) : DBState :=
  if (bucketsOf s uid).length > 0 then s
  else DEFAULT_BUCKETS.foldl (insertDefaultBucket uid) s

/-- `resetData` (api/_lib/db.js, behind the admin-only `POST /api/admin/reset`):
delete all entries, delete all buckets, then re-seed defaults for every user. -/
def resetData (s : DBState) : DBState :=
  s.users.foldl (fun st u => seedBucketsForUser u st)
    { s with entries := [], buckets := [] }

example : coerceChecked (.str "false") = true := by decide
example : coerceChecked (.bool false) = false := by decide
example : civil 2024 4 15 - civil 2024 4 12 = 3 := by decide
example : civil 2024 3 1 - civil 2024 2 29 = 1 := by decide

/-! ### Derived statistics (frontend `App.tsx`, current revision) -/

/-- One day's checked count for the streak walk:
`userEntries.filter(e => e.date === dateStr && userBucketIds.has(e.bucketId)).length`,
where `userEntries` is already restricted to the user's checked entries. -/
def dayChecks (userEntries : List Entry) (ids : List ℕ) (d : ℤ) : ℕ :=
  (userEntries.filter (fun e => e.date == d && ids.contains e.bucketId)).length

/-- The streak `while` loop: starting at day `d`, count consecutive days whose
checked count reaches `len`, stepping back one calendar day each iteration.
The source loop is unbounded; here it carries fuel, and
`walkFuel_fuel_independent` below shows any fuel beyond the number of
entries dated at or before `d` gives the loop's limit. -/
def walkFuel (userEntries : List Entry) (ids : List ℕ) (len : ℕ) :
    ℕ → ℤ → ℕ
  | 0, _ => 0
  | fuel + 1, d =>
    if len ≤ dayChecks userEntries ids d then
      walkFuel userEntries ids len fuel (d - 1) + 1
    else 0

/-- The streak computation's `userEntries`: the user's checked entries
(`entries.filter(e => e.userId === user.id && e.checked)`). -/
def streakUserEntries (s_entries : List Entry) (uid : ℕ) : List Entry :=
  s_entries.filter (fun e => e.userId == uid && e.checked)

/-- `userStreak` (App.tsx): 0 with no buckets; otherwise walk backward from
today if today is complete, else from yesterday, counting consecutive
complete days.  `s_entries` is the fetched entry list, `buckets` the user's
current buckets, `today` the current date. -/
def userStreak (s_entries : List Entry) (buckets : List Bucket) (uid : ℕ)
    (today : ℤ) : ℕ :=
  if buckets.length = 0 then 0
  else
    let userEntries := streakUserEntries s_entries uid
    let ids := buckets.map (fun b => b.id)
    let todayComplete := buckets.length ≤ dayChecks userEntries ids today
    let start := if todayComplete then today else today - 1
    walkFuel userEntries ids buckets.length (userEntries.length + 1) start

/-- A day is complete for the streak when its checked count (over the user's
current buckets) reaches the current bucket count — the claim's walk
condition. -/
def streakComplete (s_entries : List Entry) (buckets : List Bucket) (uid : ℕ)
    (d : ℤ) : Prop :=
  buckets.length ≤
    dayChecks (streakUserEntries s_entries uid) (buckets.map (fun b => b.id)) d

instance streakCompleteDecidable (s_entries : List Entry) (buckets : List Bucket)
    (uid : ℕ) (d : ℤ) : Decidable (streakComplete s_entries buckets uid d) :=
  inferInstanceAs (Decidable (_ ≤ _))

/-- The claim's walk origin: today when today is complete, else yesterday. -/
def streakStart (s_entries : List Entry) (buckets : List Bucket) (uid : ℕ)
    (today : ℤ) : ℤ :=
  if streakComplete s_entries buckets uid today then today else today - 1

/-- `activeDaysInMonth` (App.tsx): days `1 .. daysInMonth` of month `(y, m)`
whose date lies in `[epoch, today]`. -/
def activeDaysInMonth (y m : ℕ) (epoch today : ℤ) : ℕ :=
  ((List.range (daysInMonth y m)).filter (fun i =>
    epoch ≤ civil y m (i + 1) && civil y m (i + 1) ≤ today)).length

/-- The ownership lookup of `monthlyCompletionCounts` (App.tsx):
`allBuckets.find(b => b.id === entry.bucketId)` followed by
`bucket.userId === entry.userId` (false when the bucket no longer exists). -/
def bucketOwnedLookup (allBuckets : List Bucket) (i u : ℕ) : Bool :=
  match allBuckets.find? (fun b => b.id == i) with
  | none => false
  | some b => b.userId == some u

/-- The per-entry condition of `monthlyCompletionCounts` (App.tsx): the entry
is checked, dated in `[epoch, today]`, and its bucket still exists and
belongs to the entry's user. -/
def countsEntry (allBuckets : List Bucket) (epoch today : ℤ) (e : Entry) : Bool :=
  e.checked && epoch ≤ e.date && e.date ≤ today &&
    bucketOwnedLookup allBuckets e.bucketId e.userId

/-- `monthlyCompletionCounts` (App.tsx): fold the fetched entries into a
per-user checked-entry count (the `Map` is modelled as a function). -/
def monthlyCompletionCounts (allBuckets : List Bucket) (epoch today : ℤ)
    (s_entries : List Entry) : ℕ → ℕ :=
  s_entries.foldl (fun m e =>
    if countsEntry allBuckets epoch today e then
      fun u => if u = e.userId then m u + 1 else m u
    else m)
    (fun _ => 0)

/-- `getTotalPossibleForUser` (App.tsx): the user's current bucket count times
the number of active days in the viewed month. -/
def getTotalPossibleForUser (allBuckets : List Bucket) (y m : ℕ)
    (epoch today : ℤ) (uid : ℕ) : ℕ :=
  (allBuckets.filter (fun b => b.userId == some uid)).length *
    activeDaysInMonth y m epoch today

/-- The stats card's `percent` (App.tsx): `Math.round(completed/total*100)`,
or 0 when the denominator is 0. -/
def percentFor (allBuckets : List Bucket) (y m : ℕ) (epoch today : ℤ)
    (s_entries : List Entry) (uid : ℕ) : ℤ :=
  let completedCount := monthlyCompletionCounts allBuckets epoch today s_entries uid
  let totalPossible := getTotalPossibleForUser allBuckets y m epoch today uid
  if totalPossible = 0 then 0
  else jsRound ((completedCount : ℚ) / (totalPossible : ℚ) * 100)

/-! ### One-time migration (scripts/migrate.js, current revision with the
orphaned-entry safety check and dry-run support; the repository also keeps
the earlier revision of the same script without the scan). -/

/-- `ALTER TABLE buckets ADD COLUMN user_id ...` (plus dropping the legacy
name-only unique index, which is schema, not data). -/
def addUserIdColumn (s : DBState) : DBState := { s with hasUserIdColumn := true }

/-- `SELECT id, name, sort_order FROM buckets WHERE user_id IS NULL`. -/
def globalBuckets (s : DBState) : List Bucket :=
  s.buckets.filter (fun b => b.userId == none)

/-- One `INSERT INTO buckets (user_id, name, sort_order)` cloning a legacy
global bucket for one user. -/
def insertClone (st : DBState) (u : ℕ) (g : Bucket) : DBState :=
  { st with
      buckets := st.buckets ++ [⟨st.nextBucketId, some u, g.name, g.sortOrder⟩],
      nextBucketId := st.nextBucketId + 1 }

/-- Backfill loop: for each user, clone every legacy global bucket (the
global-bucket list was queried before any insert). -/
def backfillClones (s : DBState) (users : List ℕ) (globals : List Bucket) :
    DBState :=
  users.foldl (fun st u => globals.foldl (fun st2 g => insertClone st2 u g) st) s

/-- Re-link step for one (user, legacy bucket) pair: find the user's clone by
exact name match (`LIMIT 1`) and re-point the user's entries from the legacy
bucket id to the clone's id; if no clone matches, leave the entries alone. -/
def relinkOne (u : ℕ) (g : Bucket) (st : DBState) : DBState :=
  match st.buckets.find? (fun b => b.userId == some u && b.name == g.name) with
  | none => st
  | some c =>
    { st with entries := st.entries.map (fun e =>
        if e.userId == u && e.bucketId == g.id then { e with bucketId := c.id }
        else e) }

/-- Re-link loop over every (user, legacy bucket) pair. -/
def relinkEntries (s : DBState) (users : List ℕ) (globals : List Bucket) :
    DBState :=
  users.foldl (fun st u => globals.foldl (fun st2 g => relinkOne u g st2) st) s

/-- The safety scan: entries that still reference a legacy (user_id IS NULL)
bucket (`SELECT e.* FROM entries e JOIN buckets b ON b.id = e.bucket_id
WHERE b.user_id IS NULL`). -/
def orphanedEntries (s : DBState) : List Entry :=
  s.entries.filter (fun e =>
    s.buckets.any (fun b => b.id == e.bucketId && b.userId == none))

/-- `DELETE FROM buckets WHERE user_id IS NULL`, with the `ON DELETE CASCADE`
foreign key removing every entry referencing a deleted bucket row. -/
def deleteGlobalBuckets (s : DBState) : DBState :=
  let removedIds := (s.buckets.filter (fun b => b.userId == none)).map (fun b => b.id)
  { s with
      buckets := s.buckets.filter (fun b => !(b.userId == none)),
      entries := s.entries.filter (fun e => !(removedIds.contains e.bucketId)) }

/-- The `migrate()` procedure of the later revision of `scripts/migrate.js`
(the `--dry-run` revision the repository stores alongside the e2e tests): if
the `user_id` column already exists, skip the backfill entirely; otherwise
add the column, clone globals per user, re-link entries by name, then run
the safety scan and abort (throw) before deleting anything if any entry
still references a legacy bucket; only a clean scan reaches the
legacy-bucket deletion. -/
def migrate (s : DBState) : DBState × ApiResult Unit :=
  if s.hasUserIdColumn then (s, .ok ())
  else
    let s1 := addUserIdColumn s
    let globals := globalBuckets s1
    if 0 < globals.length ∧ 0 < s1.users.length then
      let s2 := backfillClones s1 s1.users globals
      let s3 := relinkEntries s2 s1.users globals
      if 0 < (orphanedEntries s3).length then
        (s3, .thrown "Cannot delete global buckets - entries would be lost. Fix manually.")
      else (deleteGlobalBuckets s3, .ok ())
    else if 0 < globals.length then (deleteGlobalBuckets s1, .ok ())
    else (s1, .ok ())

/-- `seedDefaultBuckets()` (byte-identical in both revisions of
`scripts/migrate.js`): the users without any bucket are queried once, then
each gets the three defaults via `ON CONFLICT (user_id, name) DO NOTHING`. -/
def seedDefaultBuckets (s : DBState) : DBState :=
  let usersWithout := s.users.filter (fun u => (bucketsOf s u).length == 0)
  usersWithout.foldl (fun st u => DEFAULT_BUCKETS.foldl (insertDefaultBucket u) st) s

/-- Main body of the later script revision: `migrate()` then
`seedDefaultBuckets()`; a throw anywhere aborts the script with a failure
exit. -/
def migrateFull (s : DBState) : DBState × ApiResult Unit :=
  match migrate s with
  | (s', .ok _) => (seedDefaultBuckets s', .ok ())
  | r => r

/-- One clone insert as `src/scripts/migrate.js` (lines 98-102) writes it:
`INSERT INTO buckets (user_id, name, sort_order) ... ON CONFLICT DO
NOTHING`.  The bare `ON CONFLICT` clause skips the row when it violates any
unique constraint on the table; at backfill time the only unique constraint
such a row can hit is the legacy global `buckets_name_unique` index on
`name` (created by the legacy schema in `api/_lib/db.js` and dropped only
at line 133, after the backfill).  `nameUnique` records whether that legacy
index is present on this database. -/
def insertCloneV1 (nameUnique : Bool) (st : DBState) (u : ℕ) (g : Bucket) :
    DBState :=
  if nameUnique && st.buckets.any (fun b => b.name == g.name) then st
  else insertClone st u g

/-- Backfill loop of `src/scripts/migrate.js` (lines 96-105): for each user,
clone every legacy global bucket with `ON CONFLICT DO NOTHING`. -/
def backfillClonesV1 (nameUnique : Bool) (s : DBState) (users : List ℕ)
    (globals : List Bucket) : DBState :=
  users.foldl
    (fun st u => globals.foldl (fun st2 g => insertCloneV1 nameUnique st2 u g) st) s

/-- The database right before the `DELETE FROM buckets WHERE user_id IS NULL`
statement of `src/scripts/migrate.js` (line 125): column added, clones
backfilled, entries re-linked by name. -/
def preDeleteState (nameUnique : Bool) (s : DBState) : DBState :=
  let s1 := addUserIdColumn s
  let globals := globalBuckets s1
  relinkEntries (backfillClonesV1 nameUnique s1 s1.users globals) s1.users globals

/-- `migrate()` as it stands in `src/scripts/migrate.js` (the revision with
no orphan scan): if the `user_id` column exists, skip; otherwise add the
column and, when there are both global buckets and users, backfill the
clones, re-link entries by name, and immediately run the unconditional
`DELETE FROM buckets WHERE user_id IS NULL` (line 125).  No scan guards the
delete, so the `ON DELETE CASCADE` foreign key on `entries.bucket_id`
removes every entry still referencing a legacy bucket.  The trailing
`ALTER COLUMN`, `DROP INDEX` and `CREATE UNIQUE INDEX` statements (lines
130-134) change only constraint metadata, never bucket or entry rows. -/
def migrateV1 (nameUnique : Bool) (s : DBState) : DBState :=
  if s.hasUserIdColumn then s
  else
    let s1 := addUserIdColumn s
    if 0 < (globalBuckets s1).length ∧ 0 < s1.users.length then
      deleteGlobalBuckets (preDeleteState nameUnique s)
    else s1

/-- Main body of `src/scripts/migrate.js`: `migrate()` then
`seedDefaultBuckets()`, then `process.exit(0)`; this revision has no throw
site, so the run always reports success. -/
def migrateV1Full (nameUnique : Bool) (s : DBState) : DBState × ApiResult Unit :=
  (seedDefaultBuckets (migrateV1 nameUnique s), .ok ())

/-! ### Shared list lemmas -/

theorem find?_map_of_pred_eq {α : Type} (f : α → α) (p : α → Bool) (l : List α)
    (hf : ∀ x, p (f x) = p x) : (l.map f).find? p = (l.find? p).map f := by
  induction l with
  | nil => rfl
  | cons a t ih =>
    by_cases h : p a = true
    · simp [List.find?_cons, hf, h]
    · simp only [Bool.not_eq_true] at h
      simp [List.find?_cons, hf, h, ih]

theorem find?_some_of_any {α : Type} {p : α → Bool} {l : List α}
    (h : l.any p = true) : ∃ x, l.find? p = some x := by
  induction l with
  | nil => simp at h
  | cons a t ih =>
    by_cases ha : p a = true
    · exact ⟨a, by simp [List.find?_cons, ha]⟩
    · simp only [Bool.not_eq_true] at ha
      simp only [List.any_cons, ha, Bool.false_or] at h
      obtain ⟨x, hx⟩ := ih h
      exact ⟨x, by simp [List.find?_cons, ha, hx]⟩

theorem find?_append_right {α : Type} {p : α → Bool} {l1 l2 : List α}
    (h : l1.find? p = none) : (l1 ++ l2).find? p = l2.find? p := by
  induction l1 with
  | nil => rfl
  | cons a t ih =>
    by_cases ha : p a = true
    · simp [List.find?_cons, ha] at h
    · simp only [Bool.not_eq_true] at ha
      simp only [List.find?_cons, ha] at h
      simp [List.find?_cons, ha, ih h]

/-! ### C1: entry upsert and bucket ownership -/

/-- State for C1: two users; bucket 7 belongs to user 2. -/
def S_c1 : DBState := ⟨[1, 2], [⟨7, some 2, "yoga", 1⟩], [], 8, 1, true⟩

/-- C1: the `POST /api/checkins` handler performs no bucket-ownership check:
with bucket 7 owned by user 2, an upsert by user 1 for that bucket (dated
today = 2024-04-15) succeeds and writes an entry row, instead of failing
with a BucketNotOwned error and writing nothing. -/
theorem checkins_upsert_crosses_bucket_ownership :
    handleCheckinPost S_c1 1 ⟨some 7, some (civil 2024 4 15), .bool true⟩
      (civil 2024 4 15)
    = ({ S_c1 with entries := [⟨1, 1, 7, civil 2024 4 15, true⟩], nextEntryId := 2 },
        .ok ()) := by
  decide

/-! ### C5: the editable date window -/

/-- State for C5: user 1 with one bucket of their own. -/
def S_c5 : DBState := ⟨[1], [⟨7, some 1, "yoga", 1⟩], [], 8, 1, true⟩

/-- C5: an entry upsert whose date is earlier than today − 2 or later than
today is rejected with the date-window error and writes no row (the window
is computed from the `today` passed to each call); concretely, with today
= 2024-04-15, date 2024-04-12 is rejected and date 2024-04-13 succeeds. -/
theorem checkins_date_window :
    (∀ (s : DBState) (uid b : ℕ) (d today : ℤ) (c : JSValue),
      b ≠ 0 → (d < today - 2 ∨ today < d) →
      handleCheckinPost s uid ⟨some b, some d, c⟩ today
        = (s, .clientError "Can only edit entries for today and past 2 days")) ∧
    handleCheckinPost S_c5 1 ⟨some 7, some (civil 2024 4 12), .bool true⟩
        (civil 2024 4 15)
      = (S_c5, .clientError "Can only edit entries for today and past 2 days") ∧
    handleCheckinPost S_c5 1 ⟨some 7, some (civil 2024 4 13), .bool true⟩
        (civil 2024 4 15)
      = ({ S_c5 with entries := [⟨1, 1, 7, civil 2024 4 13, true⟩], nextEntryId := 2 },
          .ok ()) := by
  refine ⟨?_, by decide, by decide⟩
  intro s uid b d today c hb0 hout
  simp [handleCheckinPost, hb0, hout]

/-- Witness for C5 at a concrete input. -/
theorem checkins_date_window_witness :
    (7 : ℕ) ≠ 0 ∧
    (civil 2024 4 12 < civil 2024 4 15 - 2 ∨ civil 2024 4 15 < civil 2024 4 12) ∧
    handleCheckinPost S_c5 1 ⟨some 7, some (civil 2024 4 12), .bool true⟩
        (civil 2024 4 15)
      = (S_c5, .clientError "Can only edit entries for today and past 2 days") :=
  ⟨by decide, by decide,
    checkins_date_window.1 S_c5 1 7 (civil 2024 4 12) (civil 2024 4 15)
      (.bool true) (by decide) (by decide)⟩

/-! ### C10: coercion of the `checked` flag -/

/-- C10: `checked` is stored as `payload.checked !== false`: only the boolean
literal `false` stores false; null, numbers, and strings (including
"false") coerce to true; and every accepted upsert stores exactly that
coerced flag on the row keyed by the request. -/
theorem checkins_checked_coercion :
    (∀ v : JSValue, coerceChecked v = false ↔ v = .bool false) ∧
    coerceChecked (.str "false") = true ∧ coerceChecked .null = true ∧
    coerceChecked .undef = true ∧ (∀ n : ℤ, coerceChecked (.num n) = true) ∧
    (∀ (s : DBState) (uid : ℕ) (p : CheckinPayload) (today : ℤ) (s' : DBState),
      handleCheckinPost s uid p today = (s', .ok ()) →
      ∃ b d e, p.bucketId = some b ∧ p.date = some d ∧
        s'.entries.find? (entryKeyIs uid b d) = some e ∧
        e.checked = coerceChecked p.checked) := by
  refine ⟨?_, by decide, by decide, by decide, fun n => rfl, ?_⟩
  · intro v
    rcases v with _ | _ | b | n | t
    · simp [coerceChecked]
    · simp [coerceChecked]
    · cases b <;> simp [coerceChecked]
    · simp [coerceChecked]
    · simp [coerceChecked]
  · intro s uid p today s' h
    obtain ⟨pb, pd, pc⟩ := p
    cases pb with
    | none => simp [handleCheckinPost] at h
    | some b =>
      cases pd with
      | none => simp [handleCheckinPost] at h
      | some d =>
        simp only [handleCheckinPost] at h
        by_cases h0 : (b == 0) = true
        · rw [if_pos h0] at h
          simp at h
        · rw [if_neg h0] at h
          by_cases hwin : d < today - 2 ∨ today < d
          · rw [if_pos hwin] at h
            simp at h
          · rw [if_neg hwin] at h
            by_cases hu : ¬ s.users.contains uid = true
            · rw [if_pos hu] at h
              simp at h
            · rw [if_neg hu] at h
              by_cases hbk : ¬ (s.buckets.any fun bk => bk.id == b) = true
              · rw [if_pos hbk] at h
                simp at h
              · rw [if_neg hbk] at h
                by_cases hkey : s.entries.any (entryKeyIs uid b d) = true
                · rw [if_pos hkey] at h
                  injection h with h1 h2
                  subst h1
                  obtain ⟨e0, he0⟩ := find?_some_of_any hkey
                  have hk0 := List.find?_some he0
                  have hpres : ∀ x : Entry,
                      entryKeyIs uid b d
                        (if entryKeyIs uid b d x then
                          { x with checked := coerceChecked pc }
                        else x)
                      = entryKeyIs uid b d x := by
                    intro x
                    by_cases hx : entryKeyIs uid b d x = true
                    · rw [if_pos hx]
                      rfl
                    · rw [if_neg hx]
                  refine ⟨b, d, { e0 with checked := coerceChecked pc },
                    rfl, rfl, ?_, rfl⟩
                  show (s.entries.map _).find? (entryKeyIs uid b d) = _
                  rw [find?_map_of_pred_eq _ _ _ hpres, he0, Option.map_some']
                  rw [if_pos hk0]
                · rw [if_neg hkey] at h
                  injection h with h1 h2
                  subst h1
                  refine ⟨b, d, ⟨s.nextEntryId, uid, b, d, coerceChecked pc⟩,
                    rfl, rfl, ?_, rfl⟩
                  show (s.entries ++ _).find? (entryKeyIs uid b d) = _
                  have hnone : s.entries.find? (entryKeyIs uid b d) = none := by
                    rw [List.find?_eq_none]
                    intro x hx hpx
                    exact hkey (List.any_eq_true.mpr ⟨x, hx, hpx⟩)
                  rw [find?_append_right hnone]
                  have hone : entryKeyIs uid b d
                      ⟨s.nextEntryId, uid, b, d, coerceChecked pc⟩ = true := by
                    simp [entryKeyIs]
                  simp [List.find?, hone]

/-- Witness for C10 at a concrete input: the string "false" is stored as
a true checked flag. -/
theorem checkins_checked_coercion_witness :
    ∃ b d e,
      (CheckinPayload.mk (some 7) (some (civil 2024 4 15)) (.str "false")).bucketId
        = some b ∧
      (CheckinPayload.mk (some 7) (some (civil 2024 4 15)) (.str "false")).date
        = some d ∧
      (handleCheckinPost S_c5 1 ⟨some 7, some (civil 2024 4 15), .str "false"⟩
          (civil 2024 4 15)).1.entries.find? (entryKeyIs 1 b d) = some e ∧
      e.checked
        = coerceChecked
            (CheckinPayload.mk (some 7) (some (civil 2024 4 15)) (.str "false")).checked :=
  checkins_checked_coercion.2.2.2.2.2 S_c5 1
    ⟨some 7, some (civil 2024 4 15), .str "false"⟩ (civil 2024 4 15)
    ((handleCheckinPost S_c5 1 ⟨some 7, some (civil 2024 4 15), .str "false"⟩
        (civil 2024 4 15)).1)
    (by decide)

/-! ### C6: duplicate bucket name on create -/

/-- State for C6: user 1 already owns a bucket named "Run". -/
def S_c6 : DBState := ⟨[1], [⟨3, some 1, "Run", 1⟩], [], 4, 1, true⟩

/-- Counterexample for C6: creating "Run" again is rejected by the unique
`(user_id, name)` index as an unhandled (thrown) database error — the POST
branch has no duplicate-name check, so no structured DuplicateName/Conflict
response is produced (though no partial write occurs). -/
theorem bucket_create_duplicate_unstructured :
    handleBucketCreate S_c6 1 (some "Run") = (S_c6, .thrown "buckets_user_name_unique") ∧
    (handleBucketCreate S_c6 1 (some "Run")).2.isClientError = false := by
  decide

/-- C6 (amended): a create for a name whose trim duplicates one of the user's
existing bucket names fails — the state is unchanged (no partial write) and
no bucket is returned — though the duplicate case itself surfaces as a
thrown database error rather than a structured response. -/
theorem bucket_create_duplicate_no_partial_write :
    ∀ (s : DBState) (uid : ℕ) (n : String),
      (∃ b ∈ s.buckets, b.userId = some uid ∧ b.name = jsTrim n) →
      (handleBucketCreate s uid (some n)).1 = s ∧
      (handleBucketCreate s uid (some n)).2.isOk = false := by
  intro s uid n hdup
  obtain ⟨b, hb, hu, hn⟩ := hdup
  simp only [handleBucketCreate]
  split_ifs with ht hlim hany
  · exact ⟨rfl, rfl⟩
  · exact ⟨rfl, rfl⟩
  · exact ⟨rfl, rfl⟩
  · exact absurd (List.any_eq_true.mpr ⟨b, hb, by simp [hu, hn]⟩) hany

/-- Witness for C6's amended theorem at a concrete input. -/
theorem bucket_create_duplicate_no_partial_write_witness :
    (∃ b ∈ S_c6.buckets, b.userId = some 1 ∧ b.name = jsTrim "Run") ∧
    (handleBucketCreate S_c6 1 (some "Run")).1 = S_c6 ∧
    (handleBucketCreate S_c6 1 (some "Run")).2.isOk = false :=
  ⟨by decide, bucket_create_duplicate_no_partial_write S_c6 1 "Run" (by decide)⟩

/-! ### C9: rename leaves the sort position untouched -/

/-- C9: a PUT with no sort position supplied leaves every bucket's id and
sort position exactly as they were (on success only names change; on any
error the state is unchanged), and buckets not addressed by the request
survive unchanged. -/
theorem bucket_rename_keeps_sort_position :
    ∀ (s : DBState) (uid i : ℕ) (name : Option String),
      (∃ b ∈ s.buckets, b.id = i ∧ b.userId = some uid) →
      ((handleBucketUpdate s uid (some i) name none).1.buckets.map
          (fun b => (b.id, b.sortOrder))
        = s.buckets.map (fun b => (b.id, b.sortOrder))) ∧
      (∀ b ∈ s.buckets, ¬(b.id = i ∧ b.userId = some uid) →
        b ∈ (handleBucketUpdate s uid (some i) name none).1.buckets) := by
  intro s uid i name _h
  simp only [handleBucketUpdate]
  split_ifs with h0
  · exact ⟨rfl, fun b hb _ => hb⟩
  · cases hf : s.buckets.find? (fun b => b.id == i && b.userId == some uid) with
    | none => exact ⟨rfl, fun b hb _ => hb⟩
    | some tgt =>
      simp only []
      split_ifs with hany
      · exact ⟨rfl, fun b hb _ => hb⟩
      · constructor
        · rw [List.map_map]
          apply List.map_congr_left
          intro b _hb
          by_cases hc : (b.id == i && b.userId == some uid) = true
          · simp [Function.comp, hc, coalesceSort]
          · simp only [Bool.not_eq_true] at hc
            simp [Function.comp, hc]
        · intro b hb hnc
          have hc : (b.id == i && b.userId == some uid) = false := by
            rcases Decidable.em (b.id = i) with hi | hi
            · rcases Decidable.em (b.userId = some uid) with hu | hu
              · exact absurd ⟨hi, hu⟩ hnc
              · simp [hu]
            · simp [hi]
          refine List.mem_map.mpr ⟨b, hb, ?_⟩
          simp [hc]

/-- Witness for C9 at a concrete input. -/
theorem bucket_rename_keeps_sort_position_witness :
    (∃ b ∈ S_c6.buckets, b.id = 3 ∧ b.userId = some 1) ∧
    ((handleBucketUpdate S_c6 1 (some 3) (some "Jog") none).1.buckets.map
        (fun b => (b.id, b.sortOrder))
      = S_c6.buckets.map (fun b => (b.id, b.sortOrder))) :=
  ⟨by decide,
    (bucket_rename_keeps_sort_position S_c6 1 3 (some "Jog") (by decide)).1⟩

/-! ### C3: the streak is the backward walk until the first gap -/

theorem length_filter_mono {α : Type} (l : List α) (p q : α → Bool)
    (himp : ∀ a, p a = true → q a = true) :
    (l.filter p).length ≤ (l.filter q).length := by
  induction l with
  | nil => simp
  | cons a t ih =>
    by_cases hp : p a = true
    · have hq := himp a hp
      simp [List.filter_cons, hp, hq] <;> omega
    · simp only [Bool.not_eq_true] at hp
      by_cases hq : q a = true
      · simp [List.filter_cons, hp, hq] <;> omega
      · simp only [Bool.not_eq_true] at hq
        simp [List.filter_cons, hp, hq] <;> omega

theorem length_filter_lt {α : Type} (l : List α) (p q : α → Bool) (x : α)
    (hx : x ∈ l) (hqx : q x = true) (hpx : p x = false)
    (himp : ∀ a, p a = true → q a = true) :
    (l.filter p).length < (l.filter q).length := by
  induction l with
  | nil => simp at hx
  | cons a t ih =>
    rcases List.mem_cons.mp hx with rfl | hxt
    · have hmono := length_filter_mono t p q himp
      simp [List.filter_cons, hpx, hqx] <;> omega
    · by_cases hp : p a = true
      · have hq := himp a hp
        have hiht := ih hxt
        simp [List.filter_cons, hp, hq] <;> omega
      · simp only [Bool.not_eq_true] at hp
        have hiht := ih hxt
        by_cases hq : q a = true
        · simp [List.filter_cons, hp, hq] <;> omega
        · simp only [Bool.not_eq_true] at hq
          simp [List.filter_cons, hp, hq] <;> omega

/-- The fueled streak walk computes exactly "count consecutive complete days
backward and stop at the first incomplete day", provided the fuel exceeds
the number of entries dated at or before the walk origin (so the fuel never
runs out before the first gap). -/
theorem walkFuel_spec (es : List Entry) (ids : List ℕ) (len : ℕ)
    (hlen : 0 < len) :
    ∀ (f : ℕ) (d : ℤ), (es.filter (fun e => e.date ≤ d)).length < f →
      (∀ k : ℕ, k < walkFuel es ids len f d →
        len ≤ dayChecks es ids (d - (k : ℤ))) ∧
      ¬ len ≤ dayChecks es ids (d - (walkFuel es ids len f d : ℤ)) := by
  intro f
  induction f with
  | zero => intro d hd; omega
  | succ a ih =>
    intro d hd
    have hunf : walkFuel es ids len (a + 1) d
        = if len ≤ dayChecks es ids d then walkFuel es ids len a (d - 1) + 1
          else 0 := rfl
    by_cases hc : len ≤ dayChecks es ids d
    · have hex : ∃ e ∈ es, e.date = d := by
        have hpos : 0 < dayChecks es ids d := lt_of_lt_of_le hlen hc
        unfold dayChecks at hpos
        obtain ⟨e, he⟩ := List.exists_mem_of_length_pos hpos
        obtain ⟨hees, hpe⟩ := List.mem_filter.mp he
        refine ⟨e, hees, ?_⟩
        have := (Bool.and_eq_true _ _).mp hpe
        exact beq_iff_eq.mp this.1
      obtain ⟨e, he, hed⟩ := hex
      have hmeas : (es.filter (fun e => e.date ≤ d - 1)).length
          < (es.filter (fun e => e.date ≤ d)).length := by
        refine length_filter_lt es _ _ e he ?_ ?_ ?_
        · simp [hed]
        · simp only [hed, decide_eq_false_iff_not]
          omega
        · intro x hx
          simp only [decide_eq_true_eq] at hx ⊢
          omega
      have hrec := ih (d - 1) (by omega)
      rw [hunf, if_pos hc]
      constructor
      · intro k hk
        cases k with
        | zero => simpa using hc
        | succ j =>
          have hj := hrec.1 j (by omega)
          have harg : d - ((j + 1 : ℕ) : ℤ) = (d - 1) - (j : ℤ) := by
            push_cast
            ring
          rw [harg]
          exact hj
      · have harg : d - ((walkFuel es ids len a (d - 1) + 1 : ℕ) : ℤ)
            = (d - 1) - (walkFuel es ids len a (d - 1) : ℤ) := by
          push_cast
          ring
        rw [harg]
        exact hrec.2
    · rw [hunf, if_neg hc]
      refine ⟨fun k hk => absurd hk (by omega), ?_⟩
      simpa using hc

/-- Entries for the C3 example: both of user 1's buckets checked on
2024-04-14 and 2024-04-12, nothing on 2024-04-13 or 2024-04-15. -/
def exampleEntries : List Entry :=
  [⟨1, 1, 1, civil 2024 4 14, true⟩, ⟨2, 1, 2, civil 2024 4 14, true⟩,
   ⟨3, 1, 1, civil 2024 4 12, true⟩, ⟨4, 1, 2, civil 2024 4 12, true⟩]

/-- Buckets for the C3 example: user 1 currently has two buckets. -/
def exampleBuckets : List Bucket :=
  [⟨1, some 1, "A", 1⟩, ⟨2, some 1, "B", 2⟩]

/-- C3: for any user with at least one bucket, `userStreak` equals the
backward walk: starting from today if today's checked count reaches the
bucket count and from yesterday otherwise, every one of the first `streak`
days of the walk is complete and the next day is not (the first incomplete
day stops the count); and on the concrete example — bucket count 2, both
buckets checked on 2024-04-14 and 2024-04-12 but not 2024-04-13, today =
2024-04-15 incomplete — the streak is 1. -/
theorem streak_backward_walk :
    (∀ (s_entries : List Entry) (buckets : List Bucket) (uid : ℕ) (today : ℤ),
      buckets ≠ [] →
      (∀ k : ℕ, k < userStreak s_entries buckets uid today →
        streakComplete s_entries buckets uid
          (streakStart s_entries buckets uid today - (k : ℤ))) ∧
      ¬ streakComplete s_entries buckets uid
          (streakStart s_entries buckets uid today
            - (userStreak s_entries buckets uid today : ℤ))) ∧
    userStreak exampleEntries exampleBuckets 1 (civil 2024 4 15) = 1 := by
  constructor
  · intro es buckets uid today hne
    have hlen : 0 < buckets.length := List.length_pos.mpr hne
    have h0 : ¬ buckets.length = 0 := by omega
    have huser : userStreak es buckets uid today
        = walkFuel (streakUserEntries es uid) (buckets.map (fun b => b.id))
            buckets.length ((streakUserEntries es uid).length + 1)
            (streakStart es buckets uid today) := by
      unfold userStreak streakStart streakComplete
      rw [if_neg h0]
    have hfuel : ((streakUserEntries es uid).filter
          (fun e => e.date ≤ streakStart es buckets uid today)).length
        < (streakUserEntries es uid).length + 1 :=
      Nat.lt_succ_of_le (List.length_filter_le _ _)
    have hspec := walkFuel_spec (streakUserEntries es uid)
      (buckets.map (fun b => b.id)) buckets.length hlen
      ((streakUserEntries es uid).length + 1)
      (streakStart es buckets uid today) hfuel
    rw [huser]
    exact ⟨fun k hk => hspec.1 k hk, hspec.2⟩
  · decide

/-- Witness for C3 at the example input. -/
theorem streak_backward_walk_witness :
    exampleBuckets ≠ [] ∧
    ¬ streakComplete exampleEntries exampleBuckets 1
        (streakStart exampleEntries exampleBuckets 1 (civil 2024 4 15)
          - (userStreak exampleEntries exampleBuckets 1 (civil 2024 4 15) : ℤ)) :=
  ⟨by decide,
    (streak_backward_walk.1 exampleEntries exampleBuckets 1 (civil 2024 4 15)
      (by decide)).2⟩

/-! ### C4: the monthly completion percentage -/

/-- The claim's numerator: checked entries of user `uid` in month `(y, m)`
whose date lies in `[epoch, today]` and whose bucket is currently owned by
`uid` (some current bucket has that id and owner). -/
def claimMonthlyCount (allBuckets : List Bucket) (y m : ℕ) (epoch today : ℤ)
    (es : List Entry) (uid : ℕ) : ℕ :=
  (es.filter (fun e => e.userId == uid && e.checked
      && civil y m 1 ≤ e.date && e.date ≤ civil y m (daysInMonth y m)
      && epoch ≤ e.date && e.date ≤ today
      && allBuckets.any (fun b => b.id == e.bucketId && b.userId == some uid))).length

theorem monthlyCompletionCounts_eq (allBuckets : List Bucket) (epoch today : ℤ)
    (es : List Entry) (u : ℕ) :
    monthlyCompletionCounts allBuckets epoch today es u
      = (es.filter (fun e =>
          countsEntry allBuckets epoch today e && e.userId == u)).length := by
  suffices h : ∀ (l : List Entry) (acc : ℕ → ℕ) (v : ℕ),
      (l.foldl (fun mp e =>
        if countsEntry allBuckets epoch today e then
          fun w => if w = e.userId then mp w + 1 else mp w
        else mp) acc) v
      = acc v + (l.filter (fun e =>
          countsEntry allBuckets epoch today e && e.userId == v)).length by
    have h0 := h es (fun _ => 0) u
    simpa [monthlyCompletionCounts] using h0
  intro l
  induction l with
  | nil => intro acc v; simp
  | cons e t ih =>
    intro acc v
    by_cases hc : countsEntry allBuckets epoch today e = true
    · rw [List.foldl_cons, if_pos hc, ih]
      by_cases hv : v = e.userId
      · have hb : (e.userId == v) = true := by simp [hv]
        simp [List.filter_cons, hc, hb, hv]
        omega
      · have hb : (e.userId == v) = false := by
          simp only [beq_eq_false_iff_ne, ne_eq]
          exact fun hcontra => hv hcontra.symm
        simp [List.filter_cons, hc, hb, hv]
    · have hc' : countsEntry allBuckets epoch today e = false :=
        Bool.not_eq_true _ ▸ (by simpa using hc)
      rw [List.foldl_cons, if_neg (by simp [hc']), ih]
      simp [List.filter_cons, hc']

theorem bucketOwnedLookup_eq_any (l : List Bucket)
    (hids : (l.map Bucket.id).Nodup) (i u : ℕ) :
    bucketOwnedLookup l i u = l.any (fun b => b.id == i && b.userId == some u) := by
  induction l with
  | nil => rfl
  | cons b t ih =>
    have hparts := List.nodup_cons.mp hids
    by_cases hb : (b.id == i) = true
    · have hbi : b.id = i := beq_iff_eq.mp hb
      by_cases hu : (b.userId == some u) = true
      · simp [bucketOwnedLookup, List.find?_cons, hb, hu]
      · have hu' : (b.userId == some u) = false := by simpa using hu
        have htail : t.any (fun b' => b'.id == i && b'.userId == some u) = false := by
          rw [List.any_eq_false]
          intro x hx hpx
          have hxid : x.id = i := beq_iff_eq.mp ((Bool.and_eq_true _ _).mp hpx).1
          exact hparts.1 (List.mem_map.mpr ⟨x, hx, hxid.trans hbi.symm⟩)
        simp [bucketOwnedLookup, List.find?_cons, hb, hu', htail]
    · have hb' : (b.id == i) = false := by simpa using hb
      have hstep : bucketOwnedLookup (b :: t) i u = bucketOwnedLookup t i u := by
        simp [bucketOwnedLookup, List.find?_cons, hb']
      rw [hstep, ih hparts.2]
      simp [List.any_cons, hb']

/-- C4: for every user and month, the stats card percentage equals
`round(100 × checked-in-month-in-window-currently-owned ÷
(current bucket count × active days in month))`, and it is 0 whenever that
denominator is 0 (rational arithmetic; division by zero never occurs because
the zero denominator is short-circuited to 0). -/
theorem monthly_completion_percent :
    ∀ (allBuckets : List Bucket) (y m : ℕ) (epoch today : ℤ)
      (es : List Entry) (uid : ℕ),
      (allBuckets.map Bucket.id).Nodup →
      (∀ e ∈ es, civil y m 1 ≤ e.date ∧ e.date ≤ civil y m (daysInMonth y m)) →
      percentFor allBuckets y m epoch today es uid
        = jsRound (100 * (claimMonthlyCount allBuckets y m epoch today es uid : ℚ)
            / (((allBuckets.filter (fun b => b.userId == some uid)).length
                * activeDaysInMonth y m epoch today : ℕ) : ℚ)) ∧
      ((allBuckets.filter (fun b => b.userId == some uid)).length
          * activeDaysInMonth y m epoch today = 0 →
        percentFor allBuckets y m epoch today es uid = 0) := by
  intro allBuckets y m epoch today es uid hids hmonth
  have hcount : monthlyCompletionCounts allBuckets epoch today es uid
      = claimMonthlyCount allBuckets y m epoch today es uid := by
    rw [monthlyCompletionCounts_eq]
    unfold claimMonthlyCount
    congr 1
    apply List.filter_congr
    intro e he
    obtain ⟨hm1, hm2⟩ := hmonth e he
    by_cases hu : (e.userId == uid) = true
    · have hueq : e.userId = uid := beq_iff_eq.mp hu
      unfold countsEntry
      rw [hueq, bucketOwnedLookup_eq_any allBuckets hids e.bucketId uid]
      apply Bool.eq_iff_iff.mpr
      simp only [Bool.and_eq_true, decide_eq_true_eq, beq_iff_eq]
      tauto
    · have hu' : (e.userId == uid) = false := by simpa using hu
      simp [hu']
  have htp : getTotalPossibleForUser allBuckets y m epoch today uid
      = (allBuckets.filter (fun b => b.userId == some uid)).length
          * activeDaysInMonth y m epoch today := rfl
  constructor
  · unfold percentFor
    rw [hcount, htp]
    by_cases hz : (allBuckets.filter (fun b => b.userId == some uid)).length
        * activeDaysInMonth y m epoch today = 0
    · rw [if_pos hz, hz]
      simp [jsRound]
      norm_num
    · rw [if_neg hz]
      congr 1
      ring
  · intro hz
    unfold percentFor
    rw [htp, if_pos hz]

/-- Witness for C4 at a concrete input (April 2024, epoch 2024-04-01, today
2024-04-15, user 1 with two buckets). -/
theorem monthly_completion_percent_witness :
    (exampleBuckets.map Bucket.id).Nodup ∧
    percentFor exampleBuckets 2024 4 (civil 2024 4 1) (civil 2024 4 15)
        exampleEntries 1
      = jsRound (100 * (claimMonthlyCount exampleBuckets 2024 4 (civil 2024 4 1)
            (civil 2024 4 15) exampleEntries 1 : ℚ)
          / (((exampleBuckets.filter (fun b => b.userId == some 1)).length
              * activeDaysInMonth 2024 4 (civil 2024 4 1) (civil 2024 4 15) : ℕ) : ℚ)) :=
  ⟨by decide,
    (monthly_completion_percent exampleBuckets 2024 4 (civil 2024 4 1)
      (civil 2024 4 15) exampleEntries 1 (by decide) (by decide)).1⟩

/-! ### Shape lemmas for the migration phases -/

theorem foldl_insertClone_proj (gl : List Bucket) (u : ℕ) :
    ∀ st : DBState,
      (gl.foldl (fun st2 g => insertClone st2 u g) st).entries = st.entries ∧
      (gl.foldl (fun st2 g => insertClone st2 u g) st).users = st.users ∧
      (gl.foldl (fun st2 g => insertClone st2 u g) st).hasUserIdColumn
        = st.hasUserIdColumn ∧
      ∃ cl : List Bucket,
        (gl.foldl (fun st2 g => insertClone st2 u g) st).buckets
          = st.buckets ++ cl := by
  induction gl with
  | nil => intro st; exact ⟨rfl, rfl, rfl, [], by simp⟩
  | cons g t ih =>
    intro st
    obtain ⟨he, hu, hc, cl, hb⟩ := ih (insertClone st u g)
    refine ⟨he, hu, hc, ⟨st.nextBucketId, some u, g.name, g.sortOrder⟩ :: cl, ?_⟩
    rw [List.foldl_cons, hb]
    show (st.buckets ++ [_]) ++ cl = _
    rw [List.append_assoc]
    rfl

theorem backfillClones_proj (users : List ℕ) (globals : List Bucket) :
    ∀ s : DBState,
      (backfillClones s users globals).entries = s.entries ∧
      (backfillClones s users globals).users = s.users ∧
      (backfillClones s users globals).hasUserIdColumn = s.hasUserIdColumn ∧
      ∃ cl : List Bucket,
        (backfillClones s users globals).buckets = s.buckets ++ cl := by
  induction users with
  | nil => intro s; exact ⟨rfl, rfl, rfl, [], (List.append_nil _).symm⟩
  | cons u t ih =>
    intro s
    obtain ⟨he1, hu1, hc1, cl1, hb1⟩ := foldl_insertClone_proj globals u s
    obtain ⟨he2, hu2, hc2, cl2, hb2⟩ :=
      ih (globals.foldl (fun st2 g => insertClone st2 u g) s)
    refine ⟨he2.trans he1, hu2.trans hu1, hc2.trans hc1, cl1 ++ cl2, ?_⟩
    show (backfillClones _ t globals).buckets = _
    rw [hb2, hb1, List.append_assoc]

theorem relinkOne_proj (u : ℕ) (g : Bucket) (st : DBState) :
    (relinkOne u g st).buckets = st.buckets ∧
    (relinkOne u g st).users = st.users ∧
    (relinkOne u g st).hasUserIdColumn = st.hasUserIdColumn ∧
    (relinkOne u g st).entries.map (fun e => e.id)
      = st.entries.map (fun e => e.id) := by
  unfold relinkOne
  cases hf : st.buckets.find? (fun b => b.userId == some u && b.name == g.name) with
  | none => exact ⟨rfl, rfl, rfl, rfl⟩
  | some c =>
    refine ⟨rfl, rfl, rfl, ?_⟩
    show (st.entries.map _).map _ = _
    rw [List.map_map]
    apply List.map_congr_left
    intro e _he
    by_cases hk : (e.userId == u && e.bucketId == g.id) = true
    · simp [Function.comp, hk]
    · simp only [Bool.not_eq_true] at hk
      simp [Function.comp, hk]

theorem relinkEntries_proj (users : List ℕ) (globals : List Bucket) :
    ∀ st : DBState,
      (relinkEntries st users globals).buckets = st.buckets ∧
      (relinkEntries st users globals).users = st.users ∧
      (relinkEntries st users globals).hasUserIdColumn = st.hasUserIdColumn ∧
      (relinkEntries st users globals).entries.map (fun e => e.id)
        = st.entries.map (fun e => e.id) := by
  have hinner : ∀ (u : ℕ) (st : DBState),
      (globals.foldl (fun st2 g => relinkOne u g st2) st).buckets = st.buckets ∧
      (globals.foldl (fun st2 g => relinkOne u g st2) st).users = st.users ∧
      (globals.foldl (fun st2 g => relinkOne u g st2) st).hasUserIdColumn
        = st.hasUserIdColumn ∧
      (globals.foldl (fun st2 g => relinkOne u g st2) st).entries.map (fun e => e.id)
        = st.entries.map (fun e => e.id) := by
    intro u
    induction globals with
    | nil => intro st; exact ⟨rfl, rfl, rfl, rfl⟩
    | cons g t ih =>
      intro st
      obtain ⟨hb1, hu1, hc1, he1⟩ := relinkOne_proj u g st
      obtain ⟨hb2, hu2, hc2, he2⟩ := ih (relinkOne u g st)
      exact ⟨hb2.trans hb1, hu2.trans hu1, hc2.trans hc1, he2.trans he1⟩
  induction users with
  | nil => intro st; exact ⟨rfl, rfl, rfl, rfl⟩
  | cons u t ih =>
    intro st
    obtain ⟨hb1, hu1, hc1, he1⟩ := hinner u st
    obtain ⟨hb2, hu2, hc2, he2⟩ :=
      ih (globals.foldl (fun st2 g => relinkOne u g st2) st)
    exact ⟨hb2.trans hb1, hu2.trans hu1, hc2.trans hc1, he2.trans he1⟩

theorem contains_removed_iff (s : DBState) (e : Entry) :
    ((s.buckets.filter (fun b => b.userId == none)).map (fun b => b.id)).contains
        e.bucketId = true
    ↔ (s.buckets.any (fun b => b.id == e.bucketId && b.userId == none)) = true := by
  constructor
  · intro h
    have hmem := List.mem_of_elem_eq_true h
    obtain ⟨b, hb, hbid⟩ := List.mem_map.mp hmem
    obtain ⟨hbm, hbn⟩ := List.mem_filter.mp hb
    exact List.any_eq_true.mpr ⟨b, hbm, by simp [hbid, beq_iff_eq.mp hbn]⟩
  · intro h
    obtain ⟨b, hb, hpb⟩ := List.any_eq_true.mp h
    obtain ⟨h1, h2⟩ := (Bool.and_eq_true _ _).mp hpb
    refine List.elem_eq_true_of_mem (List.mem_map.mpr ⟨b, ?_, beq_iff_eq.mp h1⟩)
    exact List.mem_filter.mpr ⟨hb, h2⟩

theorem delete_keeps_entries (s : DBState) (h : orphanedEntries s = []) :
    (deleteGlobalBuckets s).entries = s.entries := by
  show s.entries.filter _ = s.entries
  apply List.filter_eq_self.mpr
  intro e he
  have hno : (s.buckets.any (fun b => b.id == e.bucketId && b.userId == none))
      = false := by
    have := List.filter_eq_nil.mp h e he
    simpa using this
  rw [Bool.not_eq_true']
  by_contra hcon
  rw [Bool.not_eq_false] at hcon
  rw [(contains_removed_iff s e).mp hcon] at hno
  exact Bool.true_eq_false ▸ hno

/-! ### C2: the legacy-bucket deletion step -/

/-- Healthy legacy state (one user, one global bucket, one entry, no legacy
name index assumed). -/
def S_mig : DBState :=
  ⟨[1], [⟨10, none, "A", 1⟩], [⟨100, 1, 10, civil 2024 4 10, true⟩], 11, 101, false⟩

/-- Legacy database exactly as the legacy schema left it: the global
`buckets_name_unique` index is still present, one user, one global bucket,
and one entry referencing that bucket. -/
def S_v1 : DBState :=
  ⟨[1], [⟨10, none, "Walk", 1⟩], [⟨100, 1, 10, civil 2024 4 14, true⟩], 11, 101, false⟩

/-- C2: the spec says that before any legacy (global) bucket is deleted the
procedure verifies by an explicit scan that zero entries still reference
it, and aborts without deleting anything otherwise, so no entry row is ever
lost.  The cited `migrate()` contains no such scan: on a legacy database
still carrying the global `buckets_name_unique` index, every clone insert
is silently skipped by the bare `ON CONFLICT DO NOTHING`, no entry can be
re-linked, and the unconditional `DELETE FROM buckets WHERE user_id IS
NULL` cascades over the entries.  Concretely: one entry still references a
legacy bucket right at the deletion step (the required scan would have
found it and aborted), yet the run completes successfully and the entry
row is destroyed. -/
theorem migration_deletes_referencing_entries :
    S_v1.entries.length = 1 ∧
    0 < (orphanedEntries (preDeleteState true S_v1)).length ∧
    (migrateV1Full true S_v1).2 = .ok () ∧
    (migrateV1Full true S_v1).1.entries = [] := by
  decide

/-! ### C7: a second migration run is a no-op -/

theorem insertDefaultBucket_proj (u : ℕ) (st : DBState) (nm : String × ℤ) :
    (insertDefaultBucket u st nm).users = st.users ∧
    (insertDefaultBucket u st nm).hasUserIdColumn = st.hasUserIdColumn ∧
    (insertDefaultBucket u st nm).entries = st.entries ∧
    ∃ cl : List Bucket, (insertDefaultBucket u st nm).buckets = st.buckets ++ cl ∧
      ∀ b ∈ cl, b.userId = some u := by
  unfold insertDefaultBucket
  split_ifs with h
  · exact ⟨rfl, rfl, rfl, [], (List.append_nil _).symm, by simp⟩
  · refine ⟨rfl, rfl, rfl, [⟨st.nextBucketId, some u, nm.1, nm.2⟩], rfl, ?_⟩
    intro b hb
    rw [List.mem_singleton.mp hb]

theorem foldl_insertDefault_proj (l : List (String × ℤ)) (u : ℕ) :
    ∀ st : DBState,
      (l.foldl (insertDefaultBucket u) st).users = st.users ∧
      (l.foldl (insertDefaultBucket u) st).hasUserIdColumn = st.hasUserIdColumn ∧
      (l.foldl (insertDefaultBucket u) st).entries = st.entries ∧
      ∃ cl : List Bucket,
        (l.foldl (insertDefaultBucket u) st).buckets = st.buckets ++ cl ∧
        ∀ b ∈ cl, b.userId = some u := by
  induction l with
  | nil => intro st; exact ⟨rfl, rfl, rfl, [], (List.append_nil _).symm, by simp⟩
  | cons nm t ih =>
    intro st
    obtain ⟨hu1, hc1, he1, cl1, hb1, hcl1⟩ := insertDefaultBucket_proj u st nm
    obtain ⟨hu2, hc2, he2, cl2, hb2, hcl2⟩ := ih (insertDefaultBucket u st nm)
    refine ⟨hu2.trans hu1, hc2.trans hc1, he2.trans he1, cl1 ++ cl2, ?_, ?_⟩
    · rw [List.foldl_cons]
      rw [hb2, hb1, List.append_assoc]
    · intro b hb
      rcases List.mem_append.mp hb with h | h
      · exact hcl1 b h
      · exact hcl2 b h

theorem seedDefaultBuckets_proj (s : DBState) :
    (seedDefaultBuckets s).users = s.users ∧
    (seedDefaultBuckets s).hasUserIdColumn = s.hasUserIdColumn ∧
    (seedDefaultBuckets s).entries = s.entries ∧
    ∀ b ∈ s.buckets, b ∈ (seedDefaultBuckets s).buckets := by
  unfold seedDefaultBuckets
  have hgen : ∀ (l : List ℕ) (st : DBState),
      (l.foldl (fun st2 u => DEFAULT_BUCKETS.foldl (insertDefaultBucket u) st2) st).users
        = st.users ∧
      (l.foldl (fun st2 u => DEFAULT_BUCKETS.foldl (insertDefaultBucket u) st2)
          st).hasUserIdColumn = st.hasUserIdColumn ∧
      (l.foldl (fun st2 u => DEFAULT_BUCKETS.foldl (insertDefaultBucket u) st2)
          st).entries = st.entries ∧
      ∀ b ∈ st.buckets,
        b ∈ (l.foldl (fun st2 u => DEFAULT_BUCKETS.foldl (insertDefaultBucket u) st2)
          st).buckets := by
    intro l
    induction l with
    | nil => intro st; exact ⟨rfl, rfl, rfl, fun b hb => hb⟩
    | cons u t ih =>
      intro st
      obtain ⟨hu1, hc1, he1, cl1, hb1, _⟩ := foldl_insertDefault_proj DEFAULT_BUCKETS u st
      obtain ⟨hu2, hc2, he2, hmem2⟩ := ih (DEFAULT_BUCKETS.foldl (insertDefaultBucket u) st)
      refine ⟨hu2.trans hu1, hc2.trans hc1, he2.trans he1, ?_⟩
      intro b hb
      apply hmem2
      rw [hb1]
      exact List.mem_append.mpr (Or.inl hb)
  exact hgen _ s

/-- Any user covered before seeding, or seeded during it, ends up with at
least one bucket of their own. -/
theorem seedDefaultBuckets_coverage (s : DBState) :
    ∀ u ∈ s.users, ∃ b ∈ (seedDefaultBuckets s).buckets, b.userId = some u := by
  have hinner : ∀ (u : ℕ) (st : DBState),
      ∃ b ∈ (DEFAULT_BUCKETS.foldl (insertDefaultBucket u) st).buckets,
        b.userId = some u := by
    intro u st
    show ∃ b ∈ (([("25 min cardio", (2 : ℤ)), ("Stretching / mobility", 3)]).foldl
      (insertDefaultBucket u) (insertDefaultBucket u st ("10 min calisthenics", 1))).buckets,
      b.userId = some u
    obtain ⟨-, -, -, cl2, hb2, -⟩ :=
      foldl_insertDefault_proj [("25 min cardio", (2 : ℤ)), ("Stretching / mobility", 3)] u
        (insertDefaultBucket u st ("10 min calisthenics", 1))
    rw [hb2]
    by_cases h : (st.buckets.any
        (fun b => b.userId == some u && b.name == "10 min calisthenics")) = true
    · obtain ⟨b, hb, hpb⟩ := List.any_eq_true.mp h
      obtain ⟨h1, -⟩ := (Bool.and_eq_true _ _).mp hpb
      refine ⟨b, ?_, beq_iff_eq.mp h1⟩
      apply List.mem_append.mpr
      left
      show b ∈ (insertDefaultBucket u st ("10 min calisthenics", 1)).buckets
      obtain ⟨-, -, -, cl1, hb1, -⟩ :=
        insertDefaultBucket_proj u st ("10 min calisthenics", 1)
      rw [hb1]
      exact List.mem_append.mpr (Or.inl hb)
    · refine ⟨⟨st.nextBucketId, some u, "10 min calisthenics", 1⟩, ?_, rfl⟩
      apply List.mem_append.mpr
      left
      show _ ∈ (insertDefaultBucket u st ("10 min calisthenics", 1)).buckets
      unfold insertDefaultBucket
      rw [if_neg h]
      exact List.mem_append.mpr (Or.inr (List.mem_singleton.mpr rfl))
  have hfold : ∀ (l : List ℕ) (st : DBState) (u : ℕ),
      (u ∈ l ∨ ∃ b ∈ st.buckets, b.userId = some u) →
      ∃ b ∈ (l.foldl (fun st2 v => DEFAULT_BUCKETS.foldl (insertDefaultBucket v) st2)
        st).buckets, b.userId = some u := by
    intro l
    induction l with
    | nil =>
      intro st u h
      rcases h with h | h
      · simp at h
      · exact h
    | cons v t ih =>
      intro st u h
      rcases h with h | h
      · rcases List.mem_cons.mp h with rfl | hmem
        · exact ih _ u (Or.inr (hinner u st))
        · exact ih _ u (Or.inl hmem)
      · obtain ⟨b, hb, hub⟩ := h
        refine ih _ u (Or.inr ⟨b, ?_, hub⟩)
        obtain ⟨-, -, -, cl, hbk, -⟩ := foldl_insertDefault_proj DEFAULT_BUCKETS v st
        rw [hbk]
        exact List.mem_append.mpr (Or.inl hb)
  intro u hu
  unfold seedDefaultBuckets
  by_cases hw : u ∈ s.users.filter (fun v => (bucketsOf s v).length == 0)
  · exact hfold _ s u (Or.inl hw)
  · have hnz : ¬ ((bucketsOf s u).length == 0) = true := by
      intro hz
      exact hw (List.mem_filter.mpr ⟨hu, hz⟩)
    have hne : bucketsOf s u ≠ [] := by
      intro hnil
      exact hnz (by simp [hnil])
    obtain ⟨b, hb⟩ := List.exists_mem_of_ne_nil _ hne
    obtain ⟨hbm, hbu⟩ := List.mem_filter.mp hb
    exact hfold _ s u (Or.inr ⟨b, hbm, beq_iff_eq.mp hbu⟩)

/-- When every user already has a bucket, the seeding pass does nothing. -/
theorem seedDefaultBuckets_noop (s : DBState)
    (h : ∀ u ∈ s.users, ∃ b ∈ s.buckets, b.userId = some u) :
    seedDefaultBuckets s = s := by
  unfold seedDefaultBuckets
  have hfilter : s.users.filter (fun v => (bucketsOf s v).length == 0) = [] := by
    rw [List.filter_eq_nil]
    intro u hu hz
    obtain ⟨b, hb, hub⟩ := h u hu
    have : b ∈ bucketsOf s u := List.mem_filter.mpr ⟨hb, by simp [hub]⟩
    have hlen : 0 < (bucketsOf s u).length := List.length_pos.mpr (by
      intro hnil
      rw [hnil] at this
      simp at this)
    simp only [beq_iff_eq] at hz
    omega
  rw [hfilter]
  rfl

/-- A migration run that completes leaves the per-user ownership column
present. -/
theorem migrate_ok_flag (s : DBState) (h : (migrate s).2 = .ok ()) :
    (migrate s).1.hasUserIdColumn = true := by
  by_cases hcol : s.hasUserIdColumn = true
  · rw [show migrate s = (s, .ok ()) from by unfold migrate; rw [if_pos hcol]]
    exact hcol
  · unfold migrate at h ⊢
    rw [if_neg hcol] at h ⊢
    by_cases hgu : 0 < (globalBuckets (addUserIdColumn s)).length
        ∧ 0 < (addUserIdColumn s).users.length
    · rw [if_pos hgu] at h ⊢
      by_cases horph : 0 < (orphanedEntries (relinkEntries
          (backfillClones (addUserIdColumn s) (addUserIdColumn s).users
            (globalBuckets (addUserIdColumn s)))
          (addUserIdColumn s).users
          (globalBuckets (addUserIdColumn s)))).length
      · rw [if_pos horph] at h
        simp at h
      · rw [if_neg horph]
        show (deleteGlobalBuckets _).hasUserIdColumn = true
        have hflag3 := (relinkEntries_proj (addUserIdColumn s).users
          (globalBuckets (addUserIdColumn s))
          (backfillClones (addUserIdColumn s) (addUserIdColumn s).users
            (globalBuckets (addUserIdColumn s)))).2.2.1
        have hflag2 := (backfillClones_proj (addUserIdColumn s).users
          (globalBuckets (addUserIdColumn s)) (addUserIdColumn s)).2.2.1
        show (relinkEntries _ _ _).hasUserIdColumn = true
        rw [hflag3, hflag2]
        rfl
    · rw [if_neg hgu]
      by_cases hg : 0 < (globalBuckets (addUserIdColumn s)).length
      · rw [if_pos hg]
        rfl
      · rw [if_neg hg]
        rfl

/-- C7: if a migration run completes, running the whole script again is a
no-op: the schema check sees the per-user column, skips the backfill, the
seeding pass finds no user without buckets, and the state is bit-for-bit
unchanged (in particular no duplicate per-user buckets appear). -/
theorem migration_second_run_noop :
    ∀ s : DBState, (migrateFull s).2 = .ok () →
      migrateFull (migrateFull s).1 = ((migrateFull s).1, .ok ()) := by
  intro s hok
  cases hm : migrate s with
  | mk s1 r =>
    cases r with
    | ok a =>
      cases a
      have hfull : migrateFull s = (seedDefaultBuckets s1, .ok ()) := by
        unfold migrateFull
        rw [hm]
      rw [hfull]
      have hflag1 : s1.hasUserIdColumn = true := by
        have := migrate_ok_flag s (by rw [hm])
        rw [hm] at this
        exact this
      have hflagt : (seedDefaultBuckets s1).hasUserIdColumn = true := by
        rw [(seedDefaultBuckets_proj s1).2.1]
        exact hflag1
      have hmig_t : migrate (seedDefaultBuckets s1) = (seedDefaultBuckets s1, .ok ()) := by
        unfold migrate
        rw [if_pos hflagt]
      have hcov : ∀ u ∈ (seedDefaultBuckets s1).users,
          ∃ b ∈ (seedDefaultBuckets s1).buckets, b.userId = some u := by
        intro u hu
        rw [(seedDefaultBuckets_proj s1).1] at hu
        exact seedDefaultBuckets_coverage s1 u hu
      have hnoop := seedDefaultBuckets_noop (seedDefaultBuckets s1) hcov
      show migrateFull (seedDefaultBuckets s1) = _
      unfold migrateFull
      rw [hmig_t]
      show (seedDefaultBuckets (seedDefaultBuckets s1), ApiResult.ok ()) = _
      rw [hnoop]
    | clientError m =>
      exfalso
      have : migrateFull s = (s1, .clientError m) := by
        unfold migrateFull
        rw [hm]
      rw [this] at hok
      simp at hok
    | thrown m =>
      exfalso
      have : migrateFull s = (s1, .thrown m) := by
        unfold migrateFull
        rw [hm]
      rw [this] at hok
      simp at hok

/-- Witness for C7 at a concrete legacy state. -/
theorem migration_second_run_noop_witness :
    (migrateFull S_mig).2 = .ok () ∧
    migrateFull (migrateFull S_mig).1 = ((migrateFull S_mig).1, .ok ()) :=
  ⟨by decide, migration_second_run_noop S_mig (by decide)⟩

/-! ### C8: the per-user bucket invariant -/

/-- The bucket-table invariant: primary-key ids are distinct and below the
SERIAL counter, every owned bucket's owner holds at most 5 buckets, and
within one owner names determine the row (per-user name uniqueness, the
`buckets_user_name_unique` index). -/
def Inv (s : DBState) : Prop :=
  (s.buckets.map (fun b => b.id)).Nodup ∧
  (∀ b ∈ s.buckets, b.id < s.nextBucketId) ∧
  (∀ b ∈ s.buckets, b.userId = none ∨
    (s.buckets.filter (fun b2 => b2.userId == b.userId)).length
      ≤ MAX_BUCKETS_PER_USER) ∧
  (∀ b1 ∈ s.buckets, ∀ b2 ∈ s.buckets,
    b1.userId = b2.userId → b1.name = b2.name → b1.id = b2.id)

instance Inv.instDecidable (s : DBState) : Decidable (Inv s) := by
  unfold Inv
  infer_instance

theorem insert_fresh_Inv (s : DBState) (uid : ℕ) (t : String) (so : ℤ)
    (hInv : Inv s)
    (hcnt : (s.buckets.filter (fun b => b.userId == some uid)).length
      < MAX_BUCKETS_PER_USER)
    (hdup : (s.buckets.any (fun b => b.userId == some uid && b.name == t))
      = false) :
    Inv { s with buckets := s.buckets ++ [⟨s.nextBucketId, some uid, t, so⟩],
                 nextBucketId := s.nextBucketId + 1 } := by
  obtain ⟨hids, hbound, hcap, huniq⟩ := hInv
  have hdup' : ∀ b ∈ s.buckets, ¬ (b.userId = some uid ∧ b.name = t) := by
    intro b hb hcontra
    have := List.any_eq_false.mp hdup b hb
    exact this (by simp [hcontra.1, hcontra.2])
  refine ⟨?_, ?_, ?_, ?_⟩
  · rw [List.map_append]
    apply List.Nodup.append hids (by simp)
    intro a ha hmem
    obtain ⟨b, hb, hbid⟩ := List.mem_map.mp ha
    have : a = s.nextBucketId := by simpa using hmem
    have := hbound b hb
    omega
  · intro b hb
    show b.id < s.nextBucketId + 1
    rcases List.mem_append.mp hb with h | h
    · have := hbound b h
      omega
    · have : b = ⟨s.nextBucketId, some uid, t, so⟩ := List.mem_singleton.mp h
      rw [this]
      show s.nextBucketId < s.nextBucketId + 1
      omega
  · intro b hb
    have hsplit : ∀ k : Option ℕ,
        ((s.buckets ++ [(⟨s.nextBucketId, some uid, t, so⟩ : Bucket)]).filter
          (fun b2 => b2.userId == k)).length
        = (s.buckets.filter (fun b2 => b2.userId == k)).length
          + (if (some uid == k) = true then 1 else 0) := by
      intro k
      rw [List.filter_append, List.length_append]
      congr 1
      by_cases hk : ((some uid : Option ℕ) == k) = true
      · simp [hk]
      · have : ((some uid : Option ℕ) == k) = false := by simpa using hk
        simp [this]
    rcases List.mem_append.mp hb with h | h
    · rcases hcap b h with hnone | hle
      · exact Or.inl hnone
      · right
        rw [hsplit b.userId]
        by_cases hk : ((some uid : Option ℕ) == b.userId) = true
        · rw [if_pos hk]
          have hbu : b.userId = some uid := (beq_iff_eq.mp hk).symm
          rw [hbu]
          omega
        · rw [if_neg hk]
          omega
    · have hbeq : b = ⟨s.nextBucketId, some uid, t, so⟩ := List.mem_singleton.mp h
      right
      have hbu : b.userId = some uid := by rw [hbeq]
      rw [hsplit b.userId, hbu,
        if_pos (show ((some uid : Option ℕ) == some uid) = true by simp)]
      omega
  · intro b1 h1 b2 h2 hu hn
    rcases List.mem_append.mp h1 with m1 | m1 <;>
      rcases List.mem_append.mp h2 with m2 | m2
    · exact huniq b1 m1 b2 m2 hu hn
    · have hb2 : b2 = ⟨s.nextBucketId, some uid, t, so⟩ := List.mem_singleton.mp m2
      exfalso
      apply hdup' b1 m1
      rw [hb2] at hu hn
      exact ⟨hu, hn⟩
    · have hb1 : b1 = ⟨s.nextBucketId, some uid, t, so⟩ := List.mem_singleton.mp m1
      exfalso
      apply hdup' b2 m2
      rw [hb1] at hu hn
      exact ⟨hu.symm, hn.symm⟩
    · rw [List.mem_singleton.mp m1, List.mem_singleton.mp m2]

theorem handleBucketCreate_Inv (s : DBState) (uid : ℕ) (name : Option String)
    (hInv : Inv s) : Inv (handleBucketCreate s uid name).1 := by
  unfold handleBucketCreate
  cases name with
  | none => exact hInv
  | some n =>
    simp only []
    split_ifs with ht hlim hany
    · exact hInv
    · exact hInv
    · exact hInv
    · apply insert_fresh_Inv s uid (jsTrim n) _ hInv
      · have : ¬ MAX_BUCKETS_PER_USER ≤ (bucketsOf s uid).length := hlim
        show (s.buckets.filter (fun b => b.userId == some uid)).length
          < MAX_BUCKETS_PER_USER
        have hb : bucketsOf s uid
            = s.buckets.filter (fun b => b.userId == some uid) := rfl
        rw [hb] at this
        omega
      · simpa using hany

theorem rename_map_Inv (s : DBState) (i uid : ℕ) (tgt : Bucket)
    (nN : Bucket → String) (nS : Bucket → ℤ) (hInv : Inv s)
    (htgt_mem : tgt ∈ s.buckets) (htgt_id : tgt.id = i)
    (hguard : ∀ b ∈ s.buckets, ¬ (b.id ≠ i ∧ b.userId = some uid ∧ b.name = nN tgt)) :
    Inv { s with buckets := s.buckets.map (fun b =>
      if b.id == i && b.userId == some uid then
        { b with name := nN b, sortOrder := nS b } else b) } := by
  obtain ⟨hids, hbound, hcap, huniq⟩ := hInv
  have hid : ∀ b : Bucket,
      (if (b.id == i && b.userId == some uid) = true then
        ({ b with name := nN b, sortOrder := nS b } : Bucket) else b).id = b.id := by
    intro b
    split_ifs <;> rfl
  have huid : ∀ b : Bucket,
      (if (b.id == i && b.userId == some uid) = true then
        ({ b with name := nN b, sortOrder := nS b } : Bucket) else b).userId
      = b.userId := by
    intro b
    split_ifs <;> rfl
  have hinj := List.inj_on_of_nodup_map hids
  have hmapid : (s.buckets.map (fun b =>
      if b.id == i && b.userId == some uid then
        { b with name := nN b, sortOrder := nS b } else b)).map (fun b => b.id)
      = s.buckets.map (fun b => b.id) := by
    rw [List.map_map]
    exact List.map_congr_left (fun b _ => hid b)
  refine ⟨?_, ?_, ?_, ?_⟩
  · rw [hmapid]
    exact hids
  · intro b' hb'
    obtain ⟨b, hbmem, rfl⟩ := List.mem_map.mp hb'
    show _ < s.nextBucketId
    rw [hid b]
    exact hbound b hbmem
  · have hcnt_eq : ∀ k : Option ℕ,
        ((s.buckets.map (fun b =>
          if b.id == i && b.userId == some uid then
            { b with name := nN b, sortOrder := nS b } else b)).filter
          (fun b2 => b2.userId == k)).length
        = (s.buckets.filter (fun b2 => b2.userId == k)).length := by
      intro k
      rw [← List.countP_eq_length_filter, ← List.countP_eq_length_filter,
        List.countP_map]
      apply List.countP_congr
      intro b _
      show ((if b.id == i && b.userId == some uid then
          ({ b with name := nN b, sortOrder := nS b } : Bucket) else b).userId == k)
          = true ↔ (b.userId == k) = true
      rw [huid b]
    intro b' hb'
    obtain ⟨b, hbmem, rfl⟩ := List.mem_map.mp hb'
    rcases hcap b hbmem with hnone | hle
    · exact Or.inl ((huid b).trans hnone)
    · right
      rw [huid b, hcnt_eq b.userId]
      exact hle
  · intro x1 hx1 x2 hx2 hu hn
    obtain ⟨b1, hm1, rfl⟩ := List.mem_map.mp hx1
    obtain ⟨b2, hm2, rfl⟩ := List.mem_map.mp hx2
    rw [hid b1, hid b2]
    rw [huid b1, huid b2] at hu
    by_cases c1 : (b1.id == i && b1.userId == some uid) = true <;>
      by_cases c2 : (b2.id == i && b2.userId == some uid) = true
    · have h1 : b1.id = i := beq_iff_eq.mp ((Bool.and_eq_true _ _).mp c1).1
      have h2 : b2.id = i := beq_iff_eq.mp ((Bool.and_eq_true _ _).mp c2).1
      rw [h1, h2]
    · have h1id : b1.id = i := beq_iff_eq.mp ((Bool.and_eq_true _ _).mp c1).1
      have h1uid : b1.userId = some uid :=
        beq_iff_eq.mp ((Bool.and_eq_true _ _).mp c1).2
      have hb1tgt : b1 = tgt :=
        hinj hm1 htgt_mem (by rw [h1id, htgt_id])
      rw [if_pos c1, if_neg c2] at hn
      have hn' : nN b1 = b2.name := hn
      rw [hb1tgt] at hn'
      have hb2uid : b2.userId = some uid := by rw [← hu, h1uid]
      have hb2id : b2.id = i := by
        by_contra hne
        exact hguard b2 hm2 ⟨hne, hb2uid, hn'.symm⟩
      rw [h1id, hb2id]
    · have h2id : b2.id = i := beq_iff_eq.mp ((Bool.and_eq_true _ _).mp c2).1
      have h2uid : b2.userId = some uid :=
        beq_iff_eq.mp ((Bool.and_eq_true _ _).mp c2).2
      have hb2tgt : b2 = tgt :=
        hinj hm2 htgt_mem (by rw [h2id, htgt_id])
      rw [if_neg c1, if_pos c2] at hn
      have hn' : b1.name = nN b2 := hn
      rw [hb2tgt] at hn'
      have hb1uid : b1.userId = some uid := by rw [hu, h2uid]
      have hb1id : b1.id = i := by
        by_contra hne
        exact hguard b1 hm1 ⟨hne, hb1uid, hn'⟩
      rw [h2id, hb1id]
    · rw [if_neg c1, if_neg c2] at hn
      exact huniq b1 hm1 b2 hm2 hu hn

theorem handleBucketUpdate_Inv (s : DBState) (uid : ℕ) (pid : Option ℕ)
    (name : Option String) (so : Option ℤ) (hInv : Inv s) :
    Inv (handleBucketUpdate s uid pid name so).1 := by
  unfold handleBucketUpdate
  cases pid with
  | none => exact hInv
  | some i =>
    simp only []
    split_ifs with h0
    · exact hInv
    · cases hf : s.buckets.find? (fun b => b.id == i && b.userId == some uid) with
      | none => exact hInv
      | some tgt =>
        simp only []
        split_ifs with hany
        · exact hInv
        · have htgt_mem : tgt ∈ s.buckets := List.mem_of_find?_eq_some hf
          have htgt_pred := List.find?_some hf
          have htgt_id : tgt.id = i :=
            beq_iff_eq.mp ((Bool.and_eq_true _ _).mp htgt_pred).1
          apply rename_map_Inv s i uid tgt
            (fun b => coalesceName name b.name)
            (fun b => coalesceSort so b.sortOrder) hInv htgt_mem htgt_id
          intro b hb ⟨hne, hbuid, hbname⟩
          apply hany
          refine List.any_eq_true.mpr ⟨b, hb, ?_⟩
          have h1 : (b.id == i) = false := by
            simp [hne]
          simp [h1, hbuid, hbname]

theorem handleBucketDelete_Inv (s : DBState) (uid : ℕ) (pid : Option ℕ)
    (hInv : Inv s) : Inv (handleBucketDelete s uid pid).1 := by
  unfold handleBucketDelete
  cases pid with
  | none => exact hInv
  | some i =>
    simp only []
    split_ifs with h0 hown
    · exact hInv
    · obtain ⟨hids, hbound, hcap, huniq⟩ := hInv
      have hsub : List.Sublist
          (s.buckets.filter (fun b => !(b.id == i && b.userId == some uid)))
          s.buckets := List.filter_sublist s.buckets
      refine ⟨?_, ?_, ?_, ?_⟩
      · exact hids.sublist (hsub.map (fun b => b.id))
      · intro b hb
        show b.id < s.nextBucketId
        exact hbound b (hsub.mem hb)
      · intro b hb
        rcases hcap b (hsub.mem hb) with hnone | hle
        · exact Or.inl hnone
        · right
          calc ((s.buckets.filter
                (fun b2 => !(b2.id == i && b2.userId == some uid))).filter
                (fun b2 => b2.userId == b.userId)).length
              ≤ (s.buckets.filter (fun b2 => b2.userId == b.userId)).length :=
                (hsub.filter _).length_le
            _ ≤ MAX_BUCKETS_PER_USER := hle
      · intro b1 h1 b2 h2 hu hn
        exact huniq b1 (hsub.mem h1) b2 (hsub.mem h2) hu hn
    · exact hInv

theorem insertDefaultBucket_Inv (u : ℕ) (st : DBState) (nm : String × ℤ)
    (hInv : Inv st)
    (hcnt : (st.buckets.filter (fun b => b.userId == some u)).length
      < MAX_BUCKETS_PER_USER) : Inv (insertDefaultBucket u st nm) := by
  unfold insertDefaultBucket
  split_ifs with h
  · exact hInv
  · exact insert_fresh_Inv st u nm.1 nm.2 hInv hcnt (by simpa using h)

theorem insertDefaultBucket_cnt (u : ℕ) (st : DBState) (nm : String × ℤ) (v : ℕ) :
    ((insertDefaultBucket u st nm).buckets.filter
      (fun b => b.userId == some v)).length
    ≤ (st.buckets.filter (fun b => b.userId == some v)).length + 1 := by
  unfold insertDefaultBucket
  split_ifs with h
  · omega
  · show ((st.buckets ++ [(⟨st.nextBucketId, some u, nm.1, nm.2⟩ : Bucket)]).filter
      (fun b => b.userId == some v)).length ≤ _
    rw [List.filter_append, List.length_append]
    have hone := List.length_filter_le (fun b : Bucket => b.userId == some v)
      [(⟨st.nextBucketId, some u, nm.1, nm.2⟩ : Bucket)]
    simp only [List.length_singleton] at hone
    omega

theorem seedBucketsForUser_Inv (u : ℕ) (s : DBState) (hInv : Inv s) :
    Inv (seedBucketsForUser u s) := by
  have hmax : MAX_BUCKETS_PER_USER = 5 := rfl
  unfold seedBucketsForUser
  split_ifs with h
  · exact hInv
  · have hb : bucketsOf s u = s.buckets.filter (fun b => b.userId == some u) := rfl
    have hc0 : (s.buckets.filter (fun b => b.userId == some u)).length = 0 := by
      have hnot : ¬ 0 < (bucketsOf s u).length := h
      rw [hb] at hnot
      omega
    show Inv (insertDefaultBucket u (insertDefaultBucket u
      (insertDefaultBucket u s ("10 min calisthenics", 1)) ("25 min cardio", 2))
      ("Stretching / mobility", 3))
    have c1 := insertDefaultBucket_cnt u s ("10 min calisthenics", 1) u
    have h1 := insertDefaultBucket_Inv u s ("10 min calisthenics", 1) hInv
      (by omega)
    have c2 := insertDefaultBucket_cnt u
      (insertDefaultBucket u s ("10 min calisthenics", 1)) ("25 min cardio", 2) u
    have h2 := insertDefaultBucket_Inv u
      (insertDefaultBucket u s ("10 min calisthenics", 1)) ("25 min cardio", 2) h1
      (by omega)
    exact insertDefaultBucket_Inv u _ ("Stretching / mobility", 3) h2 (by omega)

theorem foldl_seedBucketsForUser_Inv (l : List ℕ) :
    ∀ st : DBState, Inv st →
      Inv (l.foldl (fun st2 u => seedBucketsForUser u st2) st) := by
  induction l with
  | nil => intro st h; exact h
  | cons u t ih =>
    intro st h
    exact ih _ (seedBucketsForUser_Inv u st h)

theorem resetData_Inv (s : DBState) : Inv (resetData s) := by
  unfold resetData
  apply foldl_seedBucketsForUser_Inv
  refine ⟨by simp, ?_, ?_, ?_⟩
  · intro b hb
    simp at hb
  · intro b hb
    simp at hb
  · intro b1 h1 b2 h2 _ _
    simp at h1

/-- The operations of the claim: bucket create, rename, delete, per-user
seeding, and the admin reset. -/
inductive AppOp where
  | create (uid : ℕ) (name : Option String) : AppOp
  | rename (uid : ℕ) (pid : Option ℕ) (name : Option String)
      (sortOrder : Option ℤ) : AppOp
  | remove (uid : ℕ) (pid : Option ℕ) : AppOp
  | seed (uid : ℕ) : AppOp
  | adminReset : AppOp

/-- The state reached after one operation (error outcomes leave the state as
the handler left it, i.e. unchanged). -/
def applyOp (s : DBState) : AppOp → DBState
  | .create uid name => (handleBucketCreate s uid name).1
  | .rename uid pid name so => (handleBucketUpdate s uid pid name so).1
  | .remove uid pid => (handleBucketDelete s uid pid).1
  | .seed uid => seedBucketsForUser uid s
  | .adminReset => resetData s

def applyOps (s : DBState) (ops : List AppOp) : DBState := ops.foldl applyOp s

theorem applyOp_Inv (s : DBState) (op : AppOp) (hInv : Inv s) :
    Inv (applyOp s op) := by
  cases op with
  | create uid name => exact handleBucketCreate_Inv s uid name hInv
  | rename uid pid name so => exact handleBucketUpdate_Inv s uid pid name so hInv
  | remove uid pid => exact handleBucketDelete_Inv s uid pid hInv
  | seed uid => exact seedBucketsForUser_Inv uid s hInv
  | adminReset => exact resetData_Inv s

theorem applyOps_Inv (ops : List AppOp) :
    ∀ s : DBState, Inv s → Inv (applyOps s ops) := by
  induction ops with
  | nil => intro s h; exact h
  | cons op t ih =>
    intro s h
    exact ih _ (applyOp_Inv s op h)

/-- The invariant yields the claim's reading: `list(U)` has at most 5 rows
and no repeated name. -/
theorem Inv_list_claim (s : DBState) (hInv : Inv s) (u : ℕ) :
    (listBuckets s u).length ≤ MAX_BUCKETS_PER_USER ∧
    ((listBuckets s u).map (fun b => b.name)).Nodup := by
  obtain ⟨hids, -, hcap, huniq⟩ := hInv
  have hsubl : List.Sublist (bucketsOf s u) s.buckets := List.filter_sublist _
  have hidsub : ((bucketsOf s u).map (fun b => b.id)).Nodup :=
    hids.sublist (hsubl.map _)
  constructor
  · show ((bucketsOf s u).mergeSort _).length ≤ _
    rw [(List.mergeSort_perm _ _).length_eq]
    cases hbo : bucketsOf s u with
    | nil => simp
    | cons b t =>
      have hbmem : b ∈ bucketsOf s u := by
        rw [hbo]
        exact List.mem_cons_self b t
      obtain ⟨hbs, hbu⟩ := List.mem_filter.mp hbmem
      have hbuid : b.userId = some u := beq_iff_eq.mp hbu
      rcases hcap b hbs with hnone | hle
      · rw [hnone] at hbuid
        simp at hbuid
      · rw [hbuid] at hle
        rw [← hbo]
        exact hle
  · show (((bucketsOf s u).mergeSort _).map (fun b => b.name)).Nodup
    have hmapperm := (List.mergeSort_perm (bucketsOf s u)
      (fun a b => a.sortOrder < b.sortOrder ∨
        (a.sortOrder = b.sortOrder ∧ a.id ≤ b.id))).map (fun b => b.name)
    apply hmapperm.nodup_iff.mpr
    have hnd : (bucketsOf s u).Nodup := List.Nodup.of_map _ hidsub
    apply hnd.map_on
    intro x hx y hy hxy
    obtain ⟨hxs, hxu⟩ := List.mem_filter.mp hx
    obtain ⟨hys, hyu⟩ := List.mem_filter.mp hy
    have hxyid : x.id = y.id := huniq x hxs y hys
      ((beq_iff_eq.mp hxu).trans (beq_iff_eq.mp hyu).symm) hxy
    exact List.inj_on_of_nodup_map hidsub hx hy hxyid

/-- At the cap with a nonempty trimmed name, create is rejected with the
limit error and nothing else. -/
theorem create_at_cap_limit (s : DBState) (uid : ℕ) (n : String)
    (hn : jsTrim n ≠ "") (hcnt : MAX_BUCKETS_PER_USER ≤ (bucketsOf s uid).length) :
    handleBucketCreate s uid (some n) = (s, .clientError "Maximum 5 habits allowed") := by
  unfold handleBucketCreate
  simp only []
  rw [if_neg (by simpa using hn), if_pos hcnt]

/-- Distinct primary keys below the SERIAL counter. -/
def IdsOK (s : DBState) : Prop :=
  (s.buckets.map (fun b => b.id)).Nodup ∧ ∀ b ∈ s.buckets, b.id < s.nextBucketId

theorem insertClone_IdsOK (st : DBState) (u : ℕ) (g : Bucket) (h : IdsOK st) :
    IdsOK (insertClone st u g) := by
  obtain ⟨hids, hbound⟩ := h
  constructor
  · show ((st.buckets ++ [(⟨st.nextBucketId, some u, g.name, g.sortOrder⟩ : Bucket)]).map
      (fun b => b.id)).Nodup
    rw [List.map_append]
    apply List.Nodup.append hids (by simp)
    intro a ha hmem
    obtain ⟨b, hb, hbid⟩ := List.mem_map.mp ha
    have ha' : a = st.nextBucketId := by simpa using hmem
    have := hbound b hb
    omega
  · intro b hb
    show b.id < st.nextBucketId + 1
    rcases List.mem_append.mp hb with h | h
    · have := hbound b h
      omega
    · rw [List.mem_singleton.mp h]
      show st.nextBucketId < st.nextBucketId + 1
      omega

theorem backfillClones_IdsOK (users : List ℕ) (globals : List Bucket) :
    ∀ st : DBState, IdsOK st → IdsOK (backfillClones st users globals) := by
  have hinner : ∀ (u : ℕ) (gl : List Bucket) (st : DBState), IdsOK st →
      IdsOK (gl.foldl (fun st2 g => insertClone st2 u g) st) := by
    intro u gl
    induction gl with
    | nil => intro st h; exact h
    | cons g t ih => intro st h; exact ih _ (insertClone_IdsOK st u g h)
  induction users with
  | nil => intro st h; exact h
  | cons u t ih => intro st h; exact ih _ (hinner u globals st h)

theorem relinkOne_nextId (u : ℕ) (g : Bucket) (st : DBState) :
    (relinkOne u g st).nextBucketId = st.nextBucketId := by
  unfold relinkOne
  cases st.buckets.find? (fun b => b.userId == some u && b.name == g.name) with
  | none => rfl
  | some c => rfl

theorem relinkEntries_nextId (users : List ℕ) (globals : List Bucket) :
    ∀ st : DBState, (relinkEntries st users globals).nextBucketId
      = st.nextBucketId := by
  have hinner : ∀ (u : ℕ) (st : DBState),
      (globals.foldl (fun st2 g => relinkOne u g st2) st).nextBucketId
        = st.nextBucketId := by
    intro u
    induction globals with
    | nil => intro st; rfl
    | cons g t ih =>
      intro st
      rw [List.foldl_cons, ih, relinkOne_nextId]
  induction users with
  | nil => intro st; rfl
  | cons u t ih =>
    intro st
    show (relinkEntries _ t globals).nextBucketId = _
    rw [ih, hinner]

theorem inner_clone_names (u : ℕ) (gl : List Bucket) :
    ∀ (st : DBState) (v : ℕ),
      ((gl.foldl (fun st2 g => insertClone st2 u g) st).buckets.filter
        (fun b => b.userId == some v)).map (fun b => b.name)
      = ((st.buckets.filter (fun b => b.userId == some v)).map (fun b => b.name))
          ++ (if v = u then gl.map (fun g => g.name) else []) := by
  induction gl with
  | nil =>
    intro st v
    by_cases hv : v = u <;> simp [hv]
  | cons g t ih =>
    intro st v
    rw [List.foldl_cons, ih]
    have hins : (insertClone st u g).buckets
        = st.buckets ++ [(⟨st.nextBucketId, some u, g.name, g.sortOrder⟩ : Bucket)] :=
      rfl
    rw [hins, List.filter_append, List.map_append]
    by_cases hv : v = u
    · subst hv
      have hsingle : (([(⟨st.nextBucketId, some v, g.name, g.sortOrder⟩ : Bucket)]).filter
          (fun b => b.userId == some v)).map (fun b => b.name) = [g.name] := by
        simp
      rw [hsingle]
      simp [List.append_assoc]
    · have hsingle : (([(⟨st.nextBucketId, some u, g.name, g.sortOrder⟩ : Bucket)]).filter
          (fun b => b.userId == some v)).map (fun b => b.name) = [] := by
        simp [hv]
        intro hcontra
        exact absurd hcontra.symm hv
      rw [hsingle]
      simp [hv]

theorem outer_clone_names (gl : List Bucket) :
    ∀ (users : List ℕ), users.Nodup → ∀ (st : DBState) (v : ℕ),
      ((backfillClones st users gl).buckets.filter
        (fun b => b.userId == some v)).map (fun b => b.name)
      = ((st.buckets.filter (fun b => b.userId == some v)).map (fun b => b.name))
          ++ (if v ∈ users then gl.map (fun g => g.name) else []) := by
  intro users
  induction users with
  | nil =>
    intro _ st v
    simp [backfillClones]
  | cons u t ih =>
    intro hnd st v
    obtain ⟨hu_nin, hnd_t⟩ := List.nodup_cons.mp hnd
    have hstep : backfillClones st (u :: t) gl
        = backfillClones (gl.foldl (fun st2 g => insertClone st2 u g) st) t gl := rfl
    rw [hstep, ih hnd_t, inner_clone_names u gl st v, List.append_assoc]
    congr 1
    by_cases hv : v = u
    · subst hv
      simp [hu_nin]
    · simp [hv, List.mem_cons]

theorem filter_some_of_filter_not_none (X : List Bucket) (v : ℕ) :
    (X.filter (fun b => !(b.userId == none))).filter
      (fun b => b.userId == some v)
    = X.filter (fun b => b.userId == some v) := by
  rw [List.filter_filter]
  apply List.filter_congr
  intro b _
  by_cases hbv : (b.userId == some v) = true
  · have hsome : b.userId = some v := beq_iff_eq.mp hbv
    simp [hbv, hsome]
  · have : (b.userId == some v) = false := by simpa using hbv
    simp [this]

theorem nameUnique_of_filters (l : List Bucket)
    (hids : (l.map (fun b => b.id)).Nodup)
    (hsome : ∀ b ∈ l, b.userId ≠ none)
    (hn : ∀ v : ℕ, ((l.filter (fun b => b.userId == some v)).map
      (fun b => b.name)).Nodup) :
    ∀ b1 ∈ l, ∀ b2 ∈ l, b1.userId = b2.userId → b1.name = b2.name →
      b1.id = b2.id := by
  intro b1 h1 b2 h2 hu hn12
  cases hb1u : b1.userId with
  | none => exact absurd hb1u (hsome b1 h1)
  | some v =>
    have hm1 : b1 ∈ l.filter (fun b => b.userId == some v) :=
      List.mem_filter.mpr ⟨h1, by simp [hb1u]⟩
    have hm2 : b2 ∈ l.filter (fun b => b.userId == some v) :=
      List.mem_filter.mpr ⟨h2, by simp [← hu, hb1u]⟩
    have := List.inj_on_of_nodup_map (hn v) hm1 hm2 hn12
    rw [this]

theorem seedDefaults_inner_Inv (u : ℕ) (st : DBState) (hI : Inv st)
    (hc0 : (st.buckets.filter (fun b => b.userId == some u)).length = 0) :
    Inv (DEFAULT_BUCKETS.foldl (insertDefaultBucket u) st) := by
  have hmax : MAX_BUCKETS_PER_USER = 5 := rfl
  show Inv (insertDefaultBucket u (insertDefaultBucket u
    (insertDefaultBucket u st ("10 min calisthenics", 1)) ("25 min cardio", 2))
    ("Stretching / mobility", 3))
  have c1 := insertDefaultBucket_cnt u st ("10 min calisthenics", 1) u
  have h1 := insertDefaultBucket_Inv u st ("10 min calisthenics", 1) hI (by omega)
  have c2 := insertDefaultBucket_cnt u
    (insertDefaultBucket u st ("10 min calisthenics", 1)) ("25 min cardio", 2) u
  have h2 := insertDefaultBucket_Inv u
    (insertDefaultBucket u st ("10 min calisthenics", 1)) ("25 min cardio", 2) h1
    (by omega)
  exact insertDefaultBucket_Inv u _ ("Stretching / mobility", 3) h2 (by omega)

theorem seedDefaultBuckets_Inv (st : DBState) (hInv : Inv st)
    (husers : st.users.Nodup) : Inv (seedDefaultBuckets st) := by
  suffices hgen : ∀ (l : List ℕ), l.Nodup → ∀ st2 : DBState, Inv st2 →
      (∀ v ∈ l, (st2.buckets.filter (fun b => b.userId == some v)).length = 0) →
      Inv (l.foldl (fun st3 u => DEFAULT_BUCKETS.foldl (insertDefaultBucket u) st3)
        st2) by
    apply hgen _ (husers.filter _) st hInv
    intro v hv
    have hz := (List.mem_filter.mp hv).2
    exact beq_iff_eq.mp hz
  intro l
  induction l with
  | nil => intro _ st2 h _; exact h
  | cons u t ih =>
    intro hnd st2 hI hz
    obtain ⟨hu_nin, hnd_t⟩ := List.nodup_cons.mp hnd
    rw [List.foldl_cons]
    apply ih hnd_t
    · exact seedDefaults_inner_Inv u st2 hI (hz u (List.mem_cons_self u t))
    · intro v hv
      have hvne : v ≠ u := fun h => hu_nin (h ▸ hv)
      obtain ⟨-, -, -, cl, hbk, hclu⟩ := foldl_insertDefault_proj DEFAULT_BUCKETS u st2
      rw [hbk, List.filter_append, List.length_append]
      have hclz : cl.filter (fun b => b.userId == some v) = [] := by
        rw [List.filter_eq_nil]
        intro b hb hpred
        have hbu := hclu b hb
        rw [hbu] at hpred
        exact hvne (Option.some_injective _ (beq_iff_eq.mp hpred)).symm
      rw [hz v (List.mem_cons_of_mem u hv), hclz]
      rfl

/-- A state with an empty bucket table satisfies the invariant. -/
theorem Inv_of_no_buckets (s : DBState) (h : s.buckets = []) : Inv s := by
  refine ⟨?_, ?_, ?_, ?_⟩
  · rw [h]
    simp
  · intro b hb
    rw [h] at hb
    simp at hb
  · intro b hb
    rw [h] at hb
    simp at hb
  · intro b1 h1 b2 h2 _ _
    rw [h] at h1
    simp at h1

theorem migrate_Inv_of_ok (s : DBState)
    (hcol : s.hasUserIdColumn = false)
    (hnone : ∀ b ∈ s.buckets, b.userId = none)
    (hids : (s.buckets.map (fun b => b.id)).Nodup)
    (hbound : ∀ b ∈ s.buckets, b.id < s.nextBucketId)
    (hnames : (s.buckets.map (fun b => b.name)).Nodup)
    (husers : s.users.Nodup)
    (hcap : s.buckets.length ≤ MAX_BUCKETS_PER_USER)
    (hok : (migrate s).2 = .ok ()) :
    Inv (migrate s).1 ∧ (migrate s).1.users = s.users := by
  have hcol' : ¬ s.hasUserIdColumn = true := by simp [hcol]
  have hglob : globalBuckets (addUserIdColumn s) = s.buckets := by
    show s.buckets.filter (fun b => b.userId == none) = s.buckets
    apply List.filter_eq_self.mpr
    intro b hb
    simp [hnone b hb]
  have hsnil : ∀ v : ℕ, s.buckets.filter (fun b => b.userId == some v) = [] := by
    intro v
    apply List.filter_eq_nil.mpr
    intro b hb
    rw [hnone b hb]
    simp
  unfold migrate at hok ⊢
  rw [if_neg hcol'] at hok ⊢
  by_cases hgu : 0 < (globalBuckets (addUserIdColumn s)).length
      ∧ 0 < (addUserIdColumn s).users.length
  · rw [if_pos hgu] at hok ⊢
    by_cases horph : 0 < (orphanedEntries (relinkEntries
        (backfillClones (addUserIdColumn s) (addUserIdColumn s).users
          (globalBuckets (addUserIdColumn s)))
        (addUserIdColumn s).users
        (globalBuckets (addUserIdColumn s)))).length
    · rw [if_pos horph] at hok
      simp at hok
    · rw [if_neg horph]
      have hrb := (relinkEntries_proj (addUserIdColumn s).users
        (globalBuckets (addUserIdColumn s))
        (backfillClones (addUserIdColumn s) (addUserIdColumn s).users
          (globalBuckets (addUserIdColumn s)))).1
      have hrn := relinkEntries_nextId (addUserIdColumn s).users
        (globalBuckets (addUserIdColumn s))
        (backfillClones (addUserIdColumn s) (addUserIdColumn s).users
          (globalBuckets (addUserIdColumn s)))
      have hbfIds : IdsOK (backfillClones (addUserIdColumn s)
          (addUserIdColumn s).users (globalBuckets (addUserIdColumn s))) :=
        backfillClones_IdsOK _ _ _ ⟨hids, hbound⟩
      have hbfn := (backfillClones_proj (addUserIdColumn s).users
        (globalBuckets (addUserIdColumn s)) (addUserIdColumn s)).2.1
      have hnamesEq : ∀ v : ℕ,
          (((relinkEntries
              (backfillClones (addUserIdColumn s) (addUserIdColumn s).users
                (globalBuckets (addUserIdColumn s)))
              (addUserIdColumn s).users
              (globalBuckets (addUserIdColumn s))).buckets.filter
            (fun b => b.userId == some v)).map (fun b => b.name))
          = (if v ∈ s.users then
              (globalBuckets (addUserIdColumn s)).map (fun g => g.name) else []) := by
        intro v
        rw [hrb]
        rw [outer_clone_names (globalBuckets (addUserIdColumn s))
          (addUserIdColumn s).users husers (addUserIdColumn s) v]
        have hfe : (addUserIdColumn s).buckets.filter (fun b => b.userId == some v)
            = s.buckets.filter (fun b => b.userId == some v) := rfl
        rw [hfe, hsnil v]
        rfl
      constructor
      · -- Inv of the post-deletion state
        have hfb : ∀ X : DBState, (deleteGlobalBuckets X).buckets
            = X.buckets.filter (fun b => !(b.userId == none)) := fun X => rfl
        have hfn : ∀ X : DBState, (deleteGlobalBuckets X).nextBucketId
            = X.nextBucketId := fun X => rfl
        have hsub : List.Sublist ((relinkEntries
            (backfillClones (addUserIdColumn s) (addUserIdColumn s).users
              (globalBuckets (addUserIdColumn s)))
            (addUserIdColumn s).users
            (globalBuckets (addUserIdColumn s))).buckets.filter
              (fun b => !(b.userId == none)))
          (relinkEntries
            (backfillClones (addUserIdColumn s) (addUserIdColumn s).users
              (globalBuckets (addUserIdColumn s)))
            (addUserIdColumn s).users
            (globalBuckets (addUserIdColumn s))).buckets :=
          List.filter_sublist _
        have hfiltNames : ∀ v : ℕ,
            (((deleteGlobalBuckets (relinkEntries
                (backfillClones (addUserIdColumn s) (addUserIdColumn s).users
                  (globalBuckets (addUserIdColumn s)))
                (addUserIdColumn s).users
                (globalBuckets (addUserIdColumn s)))).buckets.filter
              (fun b => b.userId == some v)).map (fun b => b.name))
            = (if v ∈ s.users then
                (globalBuckets (addUserIdColumn s)).map (fun g => g.name)
              else []) := by
          intro v
          rw [hfb, filter_some_of_filter_not_none, hnamesEq v]
        refine ⟨?_, ?_, ?_, ?_⟩
        · rw [hfb]
          have hids3 : ((relinkEntries
              (backfillClones (addUserIdColumn s) (addUserIdColumn s).users
                (globalBuckets (addUserIdColumn s)))
              (addUserIdColumn s).users
              (globalBuckets (addUserIdColumn s))).buckets.map
              (fun b => b.id)).Nodup := by
            rw [hrb]
            exact hbfIds.1
          exact hids3.sublist (hsub.map _)
        · intro b hb
          rw [hfb] at hb
          rw [hfn, hrn]
          have hbmem := hsub.mem hb
          rw [hrb] at hbmem
          exact hbfIds.2 b hbmem
        · intro b hb
          rw [hfb] at hb
          obtain ⟨hbmem3, hbpred⟩ := List.mem_filter.mp hb
          cases hbu : b.userId with
          | none =>
            rw [hbu] at hbpred
            simp at hbpred
          | some v =>
            right
            have hlen : (((deleteGlobalBuckets (relinkEntries
                (backfillClones (addUserIdColumn s) (addUserIdColumn s).users
                  (globalBuckets (addUserIdColumn s)))
                (addUserIdColumn s).users
                (globalBuckets (addUserIdColumn s)))).buckets.filter
                (fun b2 => b2.userId == some v)).map (fun b2 => b2.name)).length
                ≤ MAX_BUCKETS_PER_USER := by
              rw [hfiltNames v]
              by_cases hv : v ∈ s.users
              · rw [if_pos hv, List.length_map, hglob]
                exact hcap
              · rw [if_neg hv]
                exact Nat.zero_le _
            rw [List.length_map] at hlen
            exact hlen
        · apply nameUnique_of_filters
          · rw [hfb]
            have hids3 : ((relinkEntries
                (backfillClones (addUserIdColumn s) (addUserIdColumn s).users
                  (globalBuckets (addUserIdColumn s)))
                (addUserIdColumn s).users
                (globalBuckets (addUserIdColumn s))).buckets.map
                (fun b => b.id)).Nodup := by
              rw [hrb]
              exact hbfIds.1
            exact hids3.sublist (hsub.map _)
          · intro b hb
            rw [hfb] at hb
            obtain ⟨-, hbpred⟩ := List.mem_filter.mp hb
            intro hcontra
            rw [hcontra] at hbpred
            simp at hbpred
          · intro v
            rw [hfiltNames v]
            by_cases hv : v ∈ s.users
            · rw [if_pos hv, hglob]
              exact hnames
            · rw [if_neg hv]
              exact List.nodup_nil
      · show (deleteGlobalBuckets _).users = s.users
        have : ∀ X : DBState, (deleteGlobalBuckets X).users = X.users := fun X => rfl
        rw [this]
        rw [(relinkEntries_proj _ _ _).2.1]
        rw [(backfillClones_proj _ _ _).2.1]
        rfl
  · rw [if_neg hgu] at hok ⊢
    by_cases hg : 0 < (globalBuckets (addUserIdColumn s)).length
    · rw [if_pos hg]
      constructor
      · apply Inv_of_no_buckets
        show s.buckets.filter (fun b => !(b.userId == none)) = []
        apply List.filter_eq_nil.mpr
        intro b hb
        simp [hnone b hb]
      · rfl
    · rw [if_neg hg]
      constructor
      · apply Inv_of_no_buckets
        show s.buckets = []
        rw [hglob] at hg
        have : s.buckets.length = 0 := by omega
        exact List.length_eq_zero.mp this
      · rfl

theorem migrateFull_Inv (s : DBState)
    (hcol : s.hasUserIdColumn = false)
    (hnone : ∀ b ∈ s.buckets, b.userId = none)
    (hids : (s.buckets.map (fun b => b.id)).Nodup)
    (hbound : ∀ b ∈ s.buckets, b.id < s.nextBucketId)
    (hnames : (s.buckets.map (fun b => b.name)).Nodup)
    (husers : s.users.Nodup)
    (hcap : s.buckets.length ≤ MAX_BUCKETS_PER_USER)
    (hok : (migrateFull s).2 = .ok ()) :
    Inv (migrateFull s).1 := by
  cases hm : migrate s with
  | mk s1 r =>
    cases r with
    | ok a =>
      cases a
      have hfull : migrateFull s = (seedDefaultBuckets s1, .ok ()) := by
        unfold migrateFull
        rw [hm]
      rw [hfull]
      obtain ⟨hI, hus⟩ := migrate_Inv_of_ok s hcol hnone hids hbound hnames
        husers hcap (by rw [hm])
      rw [hm] at hI hus
      exact seedDefaultBuckets_Inv s1 hI (by rw [hus]; exact husers)
    | clientError m =>
      exfalso
      have : migrateFull s = (s1, .clientError m) := by
        unfold migrateFull
        rw [hm]
      rw [this] at hok
      simp at hok
    | thrown m =>
      exfalso
      have : migrateFull s = (s1, .thrown m) := by
        unfold migrateFull
        rw [hm]
      rw [this] at hok
      simp at hok

/-- Legacy state with six global buckets and one user. -/
def S6 : DBState :=
  ⟨[1], [⟨1, none, "A", 1⟩, ⟨2, none, "B", 2⟩, ⟨3, none, "C", 3⟩,
         ⟨4, none, "D", 4⟩, ⟨5, none, "E", 5⟩, ⟨6, none, "F", 6⟩], [], 7, 1, false⟩

/-- Counterexample for C8: migrating a legacy database with six global
buckets clones all six for the user, so after the migration `list(U)`
returns six buckets — the 5-bucket cap does not survive the migration
operation. -/
theorem bucket_cap_violated_by_migration :
    (migrateFull S6).2 = .ok () ∧
    (listBuckets (migrateFull S6).1 1).length = 6 ∧
    ¬ (listBuckets (migrateFull S6).1 1).length ≤ MAX_BUCKETS_PER_USER := by
  have hlen : (listBuckets (migrateFull S6).1 1).length
      = (bucketsOf (migrateFull S6).1 1).length :=
    (List.mergeSort_perm _ _).length_eq
  refine ⟨by decide, ?_, ?_⟩
  · rw [hlen]
    decide
  · rw [hlen]
    decide

/-- State at the cap: user 1 already has five buckets. -/
def S_cap : DBState :=
  ⟨[1], [⟨1, some 1, "A", 1⟩, ⟨2, some 1, "B", 2⟩, ⟨3, some 1, "C", 3⟩,
         ⟨4, some 1, "D", 4⟩, ⟨5, some 1, "E", 5⟩], [], 6, 1, true⟩

/-- C8 (amended): from any state satisfying the bucket invariant, every
sequence of create/rename/delete/seed/admin-reset operations keeps every
user's bucket list at 5 or fewer with pairwise-distinct names; a create
with a nonempty trimmed name is rejected with the LimitExceeded error
whenever the user is at (or beyond) the cap; and the migration also
establishes the invariant — provided the legacy database holds at most 5
global buckets (the counterexample shows more than 5 legacy buckets break
the cap). -/
theorem bucket_invariant_amended :
    (∀ (s : DBState) (ops : List AppOp), Inv s → ∀ u : ℕ,
      (listBuckets (applyOps s ops) u).length ≤ MAX_BUCKETS_PER_USER ∧
      ((listBuckets (applyOps s ops) u).map (fun b => b.name)).Nodup) ∧
    (∀ (s : DBState) (uid : ℕ) (n : String), jsTrim n ≠ "" →
      MAX_BUCKETS_PER_USER ≤ (bucketsOf s uid).length →
      handleBucketCreate s uid (some n)
        = (s, .clientError "Maximum 5 habits allowed")) ∧
    (∀ s : DBState, s.hasUserIdColumn = false →
      (∀ b ∈ s.buckets, b.userId = none) →
      (s.buckets.map (fun b => b.id)).Nodup →
      (∀ b ∈ s.buckets, b.id < s.nextBucketId) →
      (s.buckets.map (fun b => b.name)).Nodup →
      s.users.Nodup →
      s.buckets.length ≤ MAX_BUCKETS_PER_USER →
      (migrateFull s).2 = .ok () →
      ∀ u : ℕ,
        (listBuckets (migrateFull s).1 u).length ≤ MAX_BUCKETS_PER_USER ∧
        ((listBuckets (migrateFull s).1 u).map (fun b => b.name)).Nodup) := by
  refine ⟨?_, ?_, ?_⟩
  · intro s ops hInv u
    exact Inv_list_claim _ (applyOps_Inv ops s hInv) u
  · exact create_at_cap_limit
  · intro s h1 h2 h3 h4 h5 h6 h7 h8 u
    exact Inv_list_claim _ (migrateFull_Inv s h1 h2 h3 h4 h5 h6 h7 h8) u

/-- Witness for C8's amended theorem at concrete inputs. -/
theorem bucket_invariant_amended_witness :
    (Inv S_c6 ∧
      (listBuckets (applyOps S_c6 [AppOp.create 1 (some "Walk")]) 1).length
        ≤ MAX_BUCKETS_PER_USER ∧
      ((listBuckets (applyOps S_c6 [AppOp.create 1 (some "Walk")]) 1).map
        (fun b => b.name)).Nodup) ∧
    handleBucketCreate S_cap 1 (some "Run")
      = (S_cap, .clientError "Maximum 5 habits allowed") ∧
    ((listBuckets (migrateFull S_mig).1 1).length ≤ MAX_BUCKETS_PER_USER ∧
      ((listBuckets (migrateFull S_mig).1 1).map (fun b => b.name)).Nodup) :=
  ⟨⟨by decide,
    (bucket_invariant_amended.1 S_c6 [AppOp.create 1 (some "Walk")] (by decide) 1).1,
    (bucket_invariant_amended.1 S_c6 [AppOp.create 1 (some "Walk")] (by decide) 1).2⟩,
   bucket_invariant_amended.2.1 S_cap 1 "Run" (by decide) (by decide),
   bucket_invariant_amended.2.2 S_mig (by decide) (by decide) (by decide)
     (by decide) (by decide) (by decide) (by decide) (by decide) 1⟩

end HabitHub
